import Mathlib

/-!
# The SAPI 5 JScript gateway of AwesomeTTS

A shallow embedding of `awesometts/service/sapi5js.js` and the properties of
its argument validation, its hex transport codec and its voice listing.

Conventions of the embedding:

* a JScript string is the list of its 16-bit code units (`JSString`);
* a JScript number is `JSNumber`: `NaN` or an integer (the script only ever
  produces integers of at most four digits, which doubles represent exactly,
  and the negative zero of `parseInt("-0")` is identified with `0`);
* `throw new Error(msg)` is `Except.error` with one constructor of `Error`
  per message of the script;
* the built-ins the script calls (`parseInt`, `Number.prototype.toString`,
  `String.fromCharCode`, `substr`, `RegExp.prototype.test`) are modelled after
  their ECMAScript definitions;
* the speech platform is a parameter (`Platform`), and what the script does to
  it is recorded as a list of `Effect`s.
-/

namespace Sapi5js

/-! ## Values -/

/-- A JScript string, as the list of its code units. -/
abbrev JSString := List Nat

/-- The string is built from 16-bit code units. -/
def IsUtf16 (s : JSString) : Prop := ∀ c ∈ s, c < 65536

instance (s : JSString) : Decidable (IsUtf16 s) := by
  unfold IsUtf16; infer_instance

/-- The code units of an (ASCII) string literal of the script. -/
def lit (s : String) : JSString := s.toList.map Char.toNat

/-- A JScript number, as far as the script can tell numbers apart. -/
inductive JSNumber
  | nan
  | int (v : Int)
  deriving DecidableEq, Repr

/-- The `<` of JScript on numbers: false as soon as one side is `NaN`. -/
def JSNumber.lt : JSNumber → JSNumber → Bool
  | .int a, .int b => decide (a < b)
  | _, _ => false

/-- The `>` of JScript on numbers. -/
def JSNumber.gt (a b : JSNumber) : Bool := JSNumber.lt b a

/-- The result of `typeof`. -/
inductive JSType
  | undefined
  | object
  | boolean
  | number
  | string
  deriving DecidableEq, Repr

/-- A JScript value, as returned by a platform call. -/
inductive JSValue
  | undefined
  | null
  | boolean (b : Bool)
  | number (n : JSNumber)
  | string (s : JSString)
  | object
  deriving DecidableEq, Repr

/-- The operator `typeof`. -/
def typeof : JSValue → JSType
  | .undefined => .undefined
  | .null => .object
  | .boolean _ => .boolean
  | .number _ => .number
  | .string _ => .string
  | .object => .object

/-- The conversion ToBoolean, used by `&&`, `||`, `!` and `if`. -/
def toBoolean : JSValue → Bool
  | .undefined => false
  | .null => false
  | .boolean b => b
  | .number .nan => false
  | .number (.int v) => decide (v ≠ 0)
  | .string s => decide (s ≠ [])
  | .object => true

/-- The errors the script throws, one per message, and the errors raised by
the platform. -/
inductive Error
  /-- Message "Expecting the command to execute". -/
  | noCommand
  /-- Message "Unexpected extra arguments for voice-list". -/
  | unexpectedArguments
  /-- Message "Expecting exactly 7 arguments for speech-output". -/
  | wrongArgumentCount
  /-- Message "Expecting a path ending in .wav". -/
  | invalidWavePath
  /-- Message "Expected an integer for " + what. -/
  | invalidInteger (what : String)
  /-- Message "Value for " + what + " out of range". -/
  | outOfRange (what : String)
  /-- Message "Expected quad-chunked hex string for " + what. -/
  | invalidHexEncoding (what : String)
  /-- Message "Unrecognized command sent". -/
  | unrecognizedCommand
  /-- Message "SAPI does not seem to be available". -/
  | sapiUnavailable
  /-- Message "Voice retrieval does not seem to be available". -/
  | voicesUnavailable
  /-- Message "There does not seem to be any voices installed". -/
  | noVoicesInstalled
  /-- Message "Bad chunk from toString(16) call". -/
  | badChunk
  /-- Message "Could not find the specified voice.". -/
  | voiceNotFound
  /-- Message "Unable to create an output file". -/
  | outputFileError
  /-- An error raised inside a platform call. -/
  | platformError (code : Nat)
  deriving DecidableEq, Repr

instance instDecidableEqExcept {ε α : Type} [DecidableEq ε] [DecidableEq α] :
    DecidableEq (Except ε α)
  | .ok a, .ok b => if h : a = b then isTrue (by rw [h]) else isFalse (by intro e; cases e; exact h rfl)
  | .error a, .error b =>
    if h : a = b then isTrue (by rw [h]) else isFalse (by intro e; cases e; exact h rfl)
  | .ok _, .error _ => isFalse (by intro e; cases e)
  | .error _, .ok _ => isFalse (by intro e; cases e)

/-! ## Built-ins -/

/-- The characters `parseInt` skips at the start of its input
(StrWhiteSpaceChar: white space and line terminators). U+180E, which lost its
space-separator category, is not one of them. -/
def isStrWhiteSpaceChar (c : Nat) : Bool :=
  c = 9 || c = 10 || c = 11 || c = 12 || c = 13 || c = 32 || c = 160 ||
  c = 0x1680 || (decide (0x2000 ≤ c) && decide (c ≤ 0x200A)) ||
  c = 0x2028 || c = 0x2029 || c = 0x202F || c = 0x205F || c = 0x3000 || c = 0xFEFF

/-- The value of a character as a digit: `0`-`9`, then `a`-`z` or `A`-`Z`
for 10 to 35. -/
def digitValue (c : Nat) : Option Nat :=
  if 48 ≤ c ∧ c ≤ 57 then some (c - 48)
  else if 97 ≤ c ∧ c ≤ 122 then some (c - 87)
  else if 65 ≤ c ∧ c ≤ 90 then some (c - 55)
  else none

/-- The values of the longest prefix of `s` made of digits of the radix. -/
def takeDigits (radix : Nat) : JSString → List Nat
  | [] => []
  | c :: cs =>
    match digitValue c with
    | some d => if d < radix then d :: takeDigits radix cs else []
    | none => []

/-- The built-in `parseInt(s, radix)` for an explicit radix between 2 and 36:
leading white space is skipped, then a sign, then (radix 16 only) a `0x` or
`0X`; the longest run of digits that follows is the value, and `NaN` is
returned when that run is empty. -/
def parseInt (s : JSString) (radix : Nat) : JSNumber :=
  let s1 := s.dropWhile isStrWhiteSpaceChar
  let sign : Int := if s1.head? = some 45 then -1 else 1
  let s2 := if s1.head? = some 43 ∨ s1.head? = some 45 then s1.tail else s1
  let s3 := if radix = 16 ∧ (s2.take 2 = [48, 120] ∨ s2.take 2 = [48, 88]) then s2.drop 2 else s2
  let z := takeDigits radix s3
  if z = [] then .nan
  else .int (sign * ((z.foldl (fun acc d => acc * radix + d) 0 : Nat) : Int))

/-- The conversion ToUint16 that `String.fromCharCode` applies to each
argument: `NaN` becomes 0, an integer is reduced modulo 2^16. -/
def toUint16 : JSNumber → Nat
  | .nan => 0
  | .int v => (v % 65536).toNat

/-- The built-in `String.fromCharCode.apply('', codes)`. -/
def fromCharCode (codes : List JSNumber) : JSString := codes.map toUint16

/-- The built-in `s.substr(start, length)` for a start inside the string. -/
def substr (s : JSString) (start length : Nat) : JSString := (s.drop start).take length

/-- The character of a digit value: `0`-`9`, then `a`-`z`. -/
def digitChar (d : Nat) : Nat := if d < 10 then 48 + d else 87 + d

/-- The digits of `n` in the radix, most significant first, put in front of
`acc`; `fuel` bounds the number of digits produced. -/
def toDigitsAux (radix : Nat) : Nat → Nat → JSString → JSString
  | 0, _, acc => acc
  | fuel + 1, n, acc =>
    if n / radix = 0 then digitChar (n % radix) :: acc
    else toDigitsAux radix fuel (n / radix) (digitChar (n % radix) :: acc)

/-- The built-in `n.toString(radix)` for a non-negative integer `n`: a number
below `radix ^ (n + 1)` has at most `n + 1` digits, so the fuel suffices. -/
def numberToString (n radix : Nat) : JSString := toDigitsAux radix (n + 1) n []

/-- A regular expression literal of the script: its body, and whether it
starts with `^` and ends with `$` (neither literal has the `m` flag). -/
structure JSRegExp where
  anchoredStart : Bool
  body : RegularExpression Nat
  anchoredEnd : Bool

/-- The built-in `re.test(s)`: some substring of `s` matches the body, starting
at index 0 if the expression starts with `^` and ending at the end of `s` if it
ends with `$`. -/
def JSRegExp.test (re : JSRegExp) (s : JSString) : Bool :=
  (if re.anchoredStart then [s] else s.tails).any fun t =>
    (if re.anchoredEnd then [t] else t.inits).any fun u => re.body.rmatch u

/-- The class `\d`: the ten ASCII digits. -/
def reDigit : RegularExpression Nat :=
  .char 48 + .char 49 + .char 50 + .char 51 + .char 52 +
  .char 53 + .char 54 + .char 55 + .char 56 + .char 57

/-- The literal `/\.wav$/i`. Under the `i` flag a pattern letter matches the
characters with the same upper-case form; for `w`, `a` and `v` these are the
two ASCII letters only (a character outside ASCII never canonicalizes to an
ASCII one). -/
def wavRegExp : JSRegExp where
  anchoredStart := false
  body := .char 46 * (.char 119 + .char 87) * (.char 97 + .char 65) * (.char 118 + .char 86)
  anchoredEnd := true

/-- The literal `/^-?\d{1,3}$/`. -/
def integerRegExp : JSRegExp where
  anchoredStart := true
  body := (1 + .char 45) * (reDigit + reDigit * reDigit + reDigit * reDigit * reDigit)
  anchoredEnd := true

/-! ## The validators of `speech-output` -/

/-- The function `getWavePath` (lines 56-62). -/
def getWavePath (path : JSString) : Except Error JSString :=
  if decide (path.length < 5) || !wavRegExp.test path then
    .error .invalidWavePath
  else
    .ok path

/-- The function `getInteger` (lines 64-76). -/
def getInteger (str : JSString) (lower upper : Int) (what : String) : Except Error JSNumber :=
  if !integerRegExp.test str then
    .error (.invalidInteger what)
  else
    let value := parseInt str 10
    if value.lt (.int lower) || value.gt (.int upper) then
      .error (.outOfRange what)
    else
      .ok value

/-- The loop of `getUnicodeFromHex` (lines 86-88), from index `i` with the
array `unicode` built so far. Each iteration moves `i` forward by 4, so
`hex.length - i` iterations are more than enough: `fuel` starts there. -/
def decodeLoop (hex : JSString) : Nat → Nat → List JSNumber → List JSNumber
  | 0, _, unicode => unicode
  | fuel + 1, i, unicode =>
    if i < hex.length then
      decodeLoop hex fuel (i + 4) (unicode ++ [parseInt (substr hex i 4) 16])
    else
      unicode

/-- The function `getUnicodeFromHex` (lines 78-91). -/
def getUnicodeFromHex (hex : JSValue) (what : String) : Except Error JSString :=
  match hex with
  | .string h =>
    if decide (h.length < 4) || decide (h.length % 4 ≠ 0) then
      .error (.invalidHexEncoding what)
    else
      .ok (fromCharCode (decodeLoop h h.length 0 []))
  | _ => .error (.invalidHexEncoding what)

/-! ## The encoder of `voice-list` -/

/-- The loop of `getHexFromUnicode` (lines 136-147) over the code units that
remain, with the array `hex` built so far. -/
def encodeLoop : JSString → List JSString → Except Error (List JSString)
  | [], hex => .ok hex
  | c :: cs, hex =>
    let chunk := numberToString c 16
    match chunk.length with
    | 4 => encodeLoop cs (hex ++ [chunk])
    | 3 => encodeLoop cs (hex ++ [lit "0" ++ chunk])
    | 2 => encodeLoop cs (hex ++ [lit "00" ++ chunk])
    | 1 => encodeLoop cs (hex ++ [lit "000" ++ chunk])
    | _ => .error .badChunk

/-- The function `getHexFromUnicode` (lines 129-150). -/
def getHexFromUnicode (unicode : JSValue) : Except Error JSString :=
  match unicode with
  | .string u =>
    if u.length = 0 then .ok []
    else (encodeLoop u []).map List.flatten
  | _ => .ok []

/-! ## The argument parser (lines 30-103) -/

/-- The object `options`: a field that was never assigned reads `undefined`. -/
structure Options where
  file : JSValue := .undefined
  rate : JSValue := .undefined
  volume : JSValue := .undefined
  quality : JSValue := .undefined
  flags : JSValue := .undefined
  voice : JSValue := .undefined
  phrase : JSValue := .undefined
  deriving DecidableEq, Repr

/-- The call `argv.item(i)` for an index below `argv.count()`. -/
def item (argv : List JSString) (i : Nat) : JSString := argv.getD i []

/-- The seven assignments to `options` (lines 94-100), in source order; the
first validator that throws ends the script. -/
def readOptions (argv : List JSString) : Except Error Options := do
  let file ← getWavePath (item argv 1)
  let rate ← getInteger (item argv 2) (-10) 10 "rate"
  let volume ← getInteger (item argv 3) 1 100 "volume"
  let quality ← getInteger (item argv 4) 4 39 "quality"
  let flags ← getInteger (item argv 5) 0 16 "flags"
  let voice ← getUnicodeFromHex (.string (item argv 6)) "voice"
  let phrase ← getUnicodeFromHex (.string (item argv 7)) "phrase"
  pure {
    file := .string file, rate := .number rate, volume := .number volume,
    quality := .number quality, flags := .number flags,
    voice := .string voice, phrase := .string phrase }

/-- The first part of the script (lines 30-103): from the argument vector to
the pair of `command` and `options`, or to the error thrown. -/
def parseArguments (argv : List JSString) : Except Error (JSString × Options) :=
  if argv.length < 1 then .error .noCommand
  else
    let command := item argv 0
    if command = lit "voice-list" then
      if argv.length > 1 then .error .unexpectedArguments
      else .ok (command, {})
    else if command = lit "speech-output" then
      if argv.length ≠ 8 then .error .wrongArgumentCount
      else (readOptions argv).map fun options => (command, options)
    else .error .unrecognizedCommand

/-! ## The platform -/

/-- An installed voice, as the script sees it: what the two attribute lookups
`voices.item(i).getAttribute('name')` and `voices.item(i).getAttribute('language')`
do, each either raising or returning a value. -/
structure Voice where
  name : Except Error JSValue
  language : Except Error JSValue

/-- The speech platform: what each call of the script into it returns or
raises. The collection `voices` has `voices.count = voices.length`; property
assignments (`sapi.voice`, `sapi.rate`, ...) always succeed. -/
structure Platform where
  /-- The result of `WScript.createObject('SAPI.SpVoice')`, by its `typeof`. -/
  spVoice : Except Error JSType
  /-- The result of `sapi.getVoices()`, by its `typeof`. -/
  getVoices : Except Error JSType
  /-- The voices, in enumeration order. -/
  voices : List Voice
  /-- The result of `WScript.createObject('SAPI.SpFileStream')`, by its `typeof`. -/
  spFileStream : Except Error JSType
  /-- The call `audioOutputStream.open(file, 3)`. -/
  openStream : JSValue → Except Error Unit
  /-- The call `sapi.speak(phrase)` or `sapi.speak(phrase, flags)`. -/
  speak : JSValue → Option JSValue → Except Error Unit

/-- What the script does to the outside world. -/
inductive Effect
  | createObject (progId : String)
  | getVoices
  | echo (line : JSString)
  | setVoice (index : Nat)
  | setFormatType (quality : JSValue)
  | openStream (file : JSValue) (mode : Nat)
  | setAudioOutputStream
  | setRate (rate : JSValue)
  | setVolume (volume : JSValue)
  | speak (phrase : JSValue) (flags : Option JSValue)
  deriving DecidableEq, Repr

/-- The outcome of a run: the effects performed, in order, and how it ended. -/
abbrev Outcome := List Effect × Except Error Unit

/-! ## The command `voice-list` (lines 126-170) -/

/-- The marker line. -/
def voiceListMarker : JSString := lit "__AWESOMETTS_VOICE_LIST__"

/-- The argument of the `WScript.echo` of lines 162-168:
`getHexFromUnicode(name) + ' ' + (language && getHexFromUnicode(language) ||
getHexFromUnicode('unknown'))`. -/
def dataLine (name language : JSValue) : Except Error JSString := do
  let nameHex ← getHexFromUnicode name
  let languageHex ←
    if toBoolean language then do
      let hex ← getHexFromUnicode language
      if toBoolean (.string hex) then pure hex
      else getHexFromUnicode (.string (lit "unknown"))
    else getHexFromUnicode (.string (lit "unknown"))
  pure (nameHex ++ lit " " ++ languageHex)

/-- The loop of lines 152-170 over the voices that remain. The variables `name`
and `language` are declared with `var` inside the loop body: they are hoisted,
`var name;` assigns nothing, and a lookup that raises (caught by the empty
`catch`) leaves the variable with the value of the previous iteration. So both
are state of the loop. -/
def voiceListLoop : List Voice → JSValue → JSValue → List JSString →
    List JSString × Except Error Unit
  | [], _, _, out => (out, .ok ())
  | v :: vs, name, language, out =>
    let name := match v.name with
      | .ok value => value
      | .error _ => name
    let language := match v.language with
      | .ok value => value
      | .error _ => language
    match name with
    | .string n =>
      if n.length > 0 then
        match dataLine name language with
        | .ok line => voiceListLoop vs name language (out ++ [line])
        | .error e => (out, .error e)
      else voiceListLoop vs name language out
    | _ => voiceListLoop vs name language out

/-- The lines echoed by `voice-list` (lines 126-170) for the voices of the
platform, whose number is at least 1 when this code is reached. -/
def voiceList (voices : List Voice) : List JSString × Except Error Unit :=
  voiceListLoop voices .undefined .undefined [voiceListMarker]

/-! ## The command `speech-output` (lines 171-206) -/

/-- The operator `===`. -/
def strictEquals : JSValue → JSValue → Bool
  | .number .nan, _ => false
  | _, .number .nan => false
  | a, b => decide (a = b)

/-- The search loop of lines 175-183 over the voices that remain, `i` being
the index of the first of them: the index of the voice found, if any. -/
def findVoice (wanted : JSValue) : List Voice → Nat → Except Error (Option Nat)
  | [], _ => .ok none
  | v :: vs, i =>
    match v.name with
    | .error e => .error e
    | .ok name => if strictEquals name wanted then .ok (some i) else findVoice wanted vs (i + 1)

/-- The command `speech-output` (lines 171-206), after the effects `trace`. -/
def speechOutput (p : Platform) (options : Options) (trace : List Effect) : Outcome :=
  match findVoice options.voice p.voices 0 with
  | .error e => (trace, .error e)
  | .ok none => (trace, .error .voiceNotFound)
  | .ok (some i) =>
    let trace := trace ++ [.setVoice i, .createObject "SAPI.SpFileStream"]
    match p.spFileStream with
    | .error e => (trace, .error e)
    | .ok t =>
      if t ≠ .object then (trace, .error .outputFileError)
      else
        let trace := trace ++ [.setFormatType options.quality, .openStream options.file 3]
        match p.openStream options.file with
        | .error e => (trace, .error e)
        | .ok _ =>
          let trace := trace ++
            [.setAudioOutputStream, .setRate options.rate, .setVolume options.volume]
          if toBoolean options.flags then
            (trace ++ [.speak options.phrase (some options.flags)],
              p.speak options.phrase (some options.flags))
          else
            (trace ++ [.speak options.phrase none], p.speak options.phrase none)

/-! ## The whole script -/

/-- The script, run on an argument vector against a platform. -/
def run (p : Platform) (argv : List JSString) : Outcome :=
  match parseArguments argv with
  | .error e => ([], .error e)
  | .ok (command, options) =>
    let trace := [Effect.createObject "SAPI.SpVoice"]
    match p.spVoice with
    | .error e => (trace, .error e)
    | .ok t =>
      if t ≠ .object then (trace, .error .sapiUnavailable)
      else
        let trace := trace ++ [.getVoices]
        match p.getVoices with
        | .error e => (trace, .error e)
        | .ok tv =>
          if tv ≠ .object then (trace, .error .voicesUnavailable)
          else if p.voices.length < 1 then (trace, .error .noVoicesInstalled)
          else if command = lit "voice-list" then
            let (lines, result) := voiceList p.voices
            (trace ++ lines.map .echo, result)
          else if command = lit "speech-output" then
            speechOutput p options trace
          else (trace, .ok ())

/-! ## Notions of the specification -/

/-- The ASCII lower-case form of a code unit. -/
def asciiLower (c : Nat) : Nat := if 65 ≤ c ∧ c ≤ 90 then c + 32 else c

/-- The last four characters of the path are `.wav`, compared without regard
to case. -/
def EndsInWav (p : JSString) : Prop := (p.drop (p.length - 4)).map asciiLower = lit ".wav"

instance (p : JSString) : Decidable (EndsInWav p) := by
  unfold EndsInWav; infer_instance

/-- The text is an optional leading minus sign followed by 1 to 3 decimal
digits. -/
def IsIntegerText (s : JSString) : Prop :=
  let digits := if s.head? = some 45 then s.tail else s
  1 ≤ digits.length ∧ digits.length ≤ 3 ∧ ∀ c ∈ digits, 48 ≤ c ∧ c ≤ 57

instance (s : JSString) : Decidable (IsIntegerText s) := by
  unfold IsIntegerText; infer_instance

/-- The base-10 value of an optional minus sign followed by decimal digits. -/
def base10Value (s : JSString) : Int :=
  if s.head? = some 45 then -(Nat.ofDigits 10 ((s.tail.map (· - 48)).reverse) : Nat)
  else (Nat.ofDigits 10 ((s.map (· - 48)).reverse) : Nat)

/-- The error of a computation that threw, if it did. -/
def errorOf {α : Type} : Except Error α → Option Error
  | .ok _ => none
  | .error e => some e

/-- The error, if any, of validating one parameter of `speech-output` on its
own, with the validator and the bounds lines 94-100 give it: parameter 0 is
the file, then rate, volume, quality, flags, voice, and parameter 6 is the
phrase. -/
def parameterError (argv : List JSString) : Fin 7 → Option Error
  | 0 => errorOf (getWavePath (item argv 1))
  | 1 => errorOf (getInteger (item argv 2) (-10) 10 "rate")
  | 2 => errorOf (getInteger (item argv 3) 1 100 "volume")
  | 3 => errorOf (getInteger (item argv 4) 4 39 "quality")
  | 4 => errorOf (getInteger (item argv 5) 0 16 "flags")
  | 5 => errorOf (getUnicodeFromHex (.string (item argv 6)) "voice")
  | 6 => errorOf (getUnicodeFromHex (.string (item argv 7)) "phrase")

/-- The four-digit, zero-padded, lower-case hexadecimal form of a code unit. -/
def hex4 (c : Nat) : JSString :=
  [digitChar (c / 4096 % 16), digitChar (c / 256 % 16), digitChar (c / 16 % 16), digitChar (c % 16)]

/-- The successive 4-character chunks of a string. -/
def quads : JSString → List JSString
  | a :: b :: c :: d :: rest => [a, b, c, d] :: quads rest
  | _ => []

/-- The character is a hexadecimal digit, of either case. -/
def IsHexDigit (c : Nat) : Prop := (48 ≤ c ∧ c ≤ 57) ∨ (97 ≤ c ∧ c ≤ 102) ∨ (65 ≤ c ∧ c ≤ 70)

instance (c : Nat) : Decidable (IsHexDigit c) := by
  unfold IsHexDigit; infer_instance

/-- A platform with the given voices on which every other call succeeds. -/
def platformOf (voices : List Voice) : Platform where
  spVoice := .ok .object
  getVoices := .ok .object
  voices := voices
  spFileStream := .ok .object
  openStream := fun _ => .ok ()
  speak := fun _ _ => .ok ()

/-- Sample voices: Bob, then two voices named Alice. -/
def sampleVoices : List Voice :=
  [⟨.ok (.string (lit "Bob")), .ok (.string (lit "en-GB"))⟩,
   ⟨.ok (.string (lit "Alice")), .ok (.string (lit "en-US"))⟩,
   ⟨.ok (.string (lit "Alice")), .ok (.string (lit "fr-FR"))⟩]

/-- Sample voices: Bob, then a voice whose lookups raise, then Alice. -/
def sampleVoicesBroken : List Voice :=
  [⟨.ok (.string (lit "Bob")), .ok (.string (lit "en-GB"))⟩,
   ⟨.error (.platformError 7), .error (.platformError 7)⟩,
   ⟨.ok (.string (lit "Alice")), .ok (.string (lit "en-US"))⟩]

/-- A valid `speech-output` vector with the given flags and hex-encoded voice;
the phrase is `Hi`. -/
def sampleArgv (flags voiceHex : String) : List JSString :=
  [lit "speech-output", lit "a.wav", lit "0", lit "100", lit "39", lit flags, lit voiceHex,
    lit "00480069"]

/-- The options read from `sampleArgv`. -/
def sampleOptions (flags : Int) (voice : String) : Options where
  file := .string (lit "a.wav")
  rate := .number (.int 0)
  volume := .number (.int 100)
  quality := .number (.int 39)
  flags := .number (.int flags)
  voice := .string (lit voice)
  phrase := .string (lit "Hi")

/-- The character is a lower-case hexadecimal digit. -/
def IsLowerHexDigit (c : Nat) : Prop := (48 ≤ c ∧ c ≤ 57) ∨ (97 ≤ c ∧ c ≤ 102)

instance (c : Nat) : Decidable (IsLowerHexDigit c) := by
  unfold IsLowerHexDigit; infer_instance

/-- The value of a hexadecimal digit of either case. -/
def hexDigitValue (c : Nat) : Nat :=
  if c ≤ 57 then c - 48 else if 97 ≤ c then c - 87 else c - 55

/-- The base-16 value of a string of hexadecimal digits. -/
def base16Value (q : JSString) : Nat := Nat.ofDigits 16 (q.map hexDigitValue).reverse

/-- A JScript value whose string, if it is one, is built from 16-bit code
units, as every string of the language is. -/
def WellFormed : JSValue → Prop
  | .string s => IsUtf16 s
  | _ => True

instance (v : JSValue) : Decidable (WellFormed v) := by
  cases v <;> unfold WellFormed <;> infer_instance

/-- A field of a data line that the decoder accepts: a non-empty string of
lower-case hexadecimal digits whose length is a multiple of 4. -/
def IsHexField (f : JSString) : Prop :=
  f ≠ [] ∧ f.length % 4 = 0 ∧ ∀ c ∈ f, IsLowerHexDigit c

instance (f : JSString) : Decidable (IsHexField f) := by
  unfold IsHexField; infer_instance

/-- A data line of `voice-list`: two hex fields separated by one space. -/
def IsDataLine (l : JSString) : Prop :=
  ∃ f1 f2, l = f1 ++ lit " " ++ f2 ∧ IsHexField f1 ∧ IsHexField f2 ∧
    (∃ u, getUnicodeFromHex (.string f1) "voice" = .ok u) ∧
    (∃ u, getUnicodeFromHex (.string f2) "voice" = .ok u)

/-! ## Regular expressions -/

theorem test_anchored_both (re : JSRegExp) (s : JSString) (h1 : re.anchoredStart = true)
    (h2 : re.anchoredEnd = true) : re.test s = re.body.rmatch s := by
  simp [JSRegExp.test, h1, h2]

theorem test_anchored_end (re : JSRegExp) (s : JSString) (h1 : re.anchoredStart = false)
    (h2 : re.anchoredEnd = true) : re.test s = true ↔ ∃ t, t <:+ s ∧ re.body.rmatch t = true := by
  simp [JSRegExp.test, h1, h2]

theorem reDigit_rmatch (x : JSString) :
    reDigit.rmatch x = true ↔ ∃ c, x = [c] ∧ 48 ≤ c ∧ c ≤ 57 := by
  simp only [reDigit, RegularExpression.add_rmatch_iff, RegularExpression.char_rmatch_iff]
  constructor
  · intro h
    rcases h with ((((((((h | h) | h) | h) | h) | h) | h) | h) | h) | h <;>
      exact ⟨_, h, by omega, by omega⟩
  · rintro ⟨c, rfl, h1, h2⟩
    simp only [List.cons.injEq, and_true]
    omega

theorem wavBody_rmatch (t : JSString) :
    wavRegExp.body.rmatch t = true ↔ t.map asciiLower = lit ".wav" := by
  have hl : lit ".wav" = [46, 119, 97, 118] := by decide
  rw [hl]
  simp only [wavRegExp, RegularExpression.mul_rmatch_iff, RegularExpression.add_rmatch_iff,
    RegularExpression.char_rmatch_iff]
  constructor
  · rintro ⟨t1, u1, rfl, ⟨t2, u2, rfl, ⟨t3, u3, rfl, rfl, h3⟩, h2⟩, h1⟩
    rcases h3 with rfl | rfl <;> rcases h2 with rfl | rfl <;> rcases h1 with rfl | rfl <;> decide
  · intro h
    have hlen : t.length = 4 := by simpa using congrArg List.length h
    obtain ⟨a, b, c, d, rfl⟩ : ∃ a b c d, t = [a, b, c, d] := by
      match t, hlen with
      | [a, b, c, d], _ => exact ⟨a, b, c, d, rfl⟩
    simp only [List.map_cons, List.map_nil, List.cons.injEq, and_true, asciiLower] at h
    obtain ⟨ha, hb, hc, hd⟩ := h
    refine ⟨[a, b, c], [d], rfl, ⟨[a, b], [c], rfl, ⟨[a], [b], rfl, ?_, ?_⟩, ?_⟩, ?_⟩
    · simp; split at ha <;> omega
    · simp; split at hb <;> omega
    · simp; split at hc <;> omega
    · simp; split at hd <;> omega

theorem wavRegExp_test (p : JSString) : wavRegExp.test p = true ↔ EndsInWav p := by
  rw [test_anchored_end _ _ rfl rfl]
  simp only [wavBody_rmatch, EndsInWav]
  constructor
  · rintro ⟨t, hs, ht⟩
    have hlen : t.length = 4 := by simpa using congrArg List.length ht
    rw [List.suffix_iff_eq_drop, hlen] at hs
    rw [← hs]; exact ht
  · intro ht
    exact ⟨_, List.drop_suffix _ _, ht⟩

/-! ## Path validation -/

/-- C6. `getWavePath` accepts a path exactly when it has at least 5 characters
and its last four are `.wav` in any mix of cases; it then returns the path
unchanged, and otherwise it fails with the invalid-wave-path error. So `a.wav`
and `a.WAV` are accepted, and `a.wa`, `.wav` and `output.mp3` are rejected. -/
theorem getWavePath_spec (p : JSString) :
    (∀ r, getWavePath p = .ok r ↔ (5 ≤ p.length ∧ EndsInWav p ∧ r = p)) ∧
    (getWavePath p = .error .invalidWavePath ↔ ¬ (5 ≤ p.length ∧ EndsInWav p)) ∧
    getWavePath (lit "a.wav") = .ok (lit "a.wav") ∧
    getWavePath (lit "a.WAV") = .ok (lit "a.WAV") ∧
    getWavePath (lit "a.wa") = .error .invalidWavePath ∧
    getWavePath (lit ".wav") = .error .invalidWavePath ∧
    getWavePath (lit "output.mp3") = .error .invalidWavePath := by
  refine ⟨?_, ?_, by decide⟩
  · intro r
    unfold getWavePath
    by_cases h5 : p.length < 5
    · simp [h5]
    · have := wavRegExp_test p
      by_cases ht : wavRegExp.test p = true
      · simp [h5, ht, this.mp ht]
        constructor
        · intro h; exact ⟨by omega, h.symm⟩
        · intro h; exact h.2.symm
      · have hn : ¬ EndsInWav p := fun h => ht (this.mpr h)
        simp [h5, ht, hn]
  · unfold getWavePath
    by_cases h5 : p.length < 5
    · simp [h5]
    · have := wavRegExp_test p
      by_cases ht : wavRegExp.test p = true
      · simp [h5, ht, this.mp ht]
      · have hn : ¬ EndsInWav p := fun h => ht (this.mpr h)
        simp [h5, ht, hn]

/-! ## Integers -/

theorem digitValue_not_space (c d : Nat) (h : digitValue c = some d) :
    isStrWhiteSpaceChar c = false ∧ c ≠ 43 ∧ c ≠ 45 := by
  unfold digitValue at h
  have hc : (48 ≤ c ∧ c ≤ 57) ∨ (97 ≤ c ∧ c ≤ 122) ∨ (65 ≤ c ∧ c ≤ 90) := by
    by_contra hn
    simp only [not_or] at hn
    simp [hn.1, hn.2.1, hn.2.2] at h
  refine ⟨?_, by omega, by omega⟩
  simp only [isStrWhiteSpaceChar, Bool.or_eq_false_iff, decide_eq_false_iff_not,
    Bool.and_eq_false_iff]
  omega

theorem parseInt_digits (radix c : Nat) (cs : JSString) (d : Nat)
    (hc : digitValue c = some d) (hd : d < radix)
    (hx : radix = 16 → cs.head? ≠ some 120 ∧ cs.head? ≠ some 88) :
    parseInt (c :: cs) radix =
      .int ((takeDigits radix (c :: cs)).foldl (fun acc d => acc * radix + d) 0 : Nat) := by
  obtain ⟨hw, h43, h45⟩ := digitValue_not_space c d hc
  have hz : takeDigits radix (c :: cs) ≠ [] := by simp [takeDigits, hc, hd]
  have hpre : ¬ (radix = 16 ∧ ((c :: cs).take 2 = [48, 120] ∨ (c :: cs).take 2 = [48, 88])) := by
    rintro ⟨h16, h⟩
    obtain ⟨h1, h2⟩ := hx h16
    cases cs with
    | nil => simp at h
    | cons b t => simp at h h1 h2; omega
  unfold parseInt
  simp only [List.dropWhile_cons, hw, Bool.false_eq_true, if_false, List.head?_cons,
    Option.some.injEq, h43, h45, or_self, hpre, hz]
  simp

theorem parseInt_minus_digits (c : Nat) (cs : JSString) (d : Nat)
    (hc : digitValue c = some d) (hd : d < 10) :
    parseInt (45 :: c :: cs) 10 =
      .int (-((takeDigits 10 (c :: cs)).foldl (fun acc d => acc * 10 + d) 0 : Nat)) := by
  have hz : takeDigits 10 (c :: cs) ≠ [] := by simp [takeDigits, hc, hd]
  have hw : isStrWhiteSpaceChar 45 = false := by decide
  unfold parseInt
  simp only [List.dropWhile_cons, hw, Bool.false_eq_true, if_false, List.head?_cons,
    or_true, if_true, List.tail_cons, hz]
  simp [hz]

theorem digits_cases (ds : JSString) (h1 : 1 ≤ ds.length) (h3 : ds.length ≤ 3) :
    (∃ a, ds = [a]) ∨ (∃ a b, ds = [a, b]) ∨ (∃ a b c, ds = [a, b, c]) := by
  match ds, h1, h3 with
  | [a], _, _ => exact Or.inl ⟨a, rfl⟩
  | [a, b], _, _ => exact Or.inr (Or.inl ⟨a, b, rfl⟩)
  | [a, b, c], _, _ => exact Or.inr (Or.inr ⟨a, b, c, rfl⟩)
  | _ :: _ :: _ :: _ :: _, _, h => simp at h

theorem integerBody_rmatch (s : JSString) :
    integerRegExp.body.rmatch s = true ↔ IsIntegerText s := by
  simp only [integerRegExp, RegularExpression.mul_rmatch_iff, RegularExpression.add_rmatch_iff,
    RegularExpression.one_rmatch_iff, RegularExpression.char_rmatch_iff, reDigit_rmatch]
  constructor
  · rintro ⟨t, u, rfl, ht, hu⟩
    have hu' : (∃ a, u = [a] ∧ 48 ≤ a ∧ a ≤ 57) ∨
        (∃ a b, u = [a, b] ∧ (48 ≤ a ∧ a ≤ 57) ∧ (48 ≤ b ∧ b ≤ 57)) ∨
        (∃ a b c, u = [a, b, c] ∧ (48 ≤ a ∧ a ≤ 57) ∧ (48 ≤ b ∧ b ≤ 57) ∧ (48 ≤ c ∧ c ≤ 57)) := by
      rcases hu with (⟨a, rfl, ha⟩ | ⟨_, _, rfl, ⟨a, rfl, ha⟩, ⟨b, rfl, hb⟩⟩) |
        ⟨_, _, rfl, ⟨_, _, rfl, ⟨a, rfl, ha⟩, ⟨b, rfl, hb⟩⟩, ⟨c, rfl, hc⟩⟩
      · exact Or.inl ⟨a, rfl, ha⟩
      · exact Or.inr (Or.inl ⟨a, b, rfl, ha, hb⟩)
      · exact Or.inr (Or.inr ⟨a, b, c, rfl, ha, hb, hc⟩)
    unfold IsIntegerText
    rcases ht with rfl | rfl <;>
      rcases hu' with ⟨a, rfl, ha⟩ | ⟨a, b, rfl, ha, hb⟩ | ⟨a, b, c, rfl, ha, hb, hc⟩ <;>
      have h45 : a ≠ 45 := by omega
    all_goals simp [h45]
    all_goals omega
  · intro h
    unfold IsIntegerText at h
    by_cases hm : s.head? = some 45
    · obtain ⟨t, rfl⟩ : ∃ t, s = 45 :: t := by
        cases s with
        | nil => simp at hm
        | cons x t => simp at hm; exact ⟨t, by rw [hm]⟩
      simp only [List.head?_cons, if_true, List.tail_cons] at h
      obtain ⟨h1, h3, hd⟩ := h
      refine ⟨[45], t, rfl, Or.inr rfl, ?_⟩
      rcases digits_cases t h1 h3 with ⟨a, rfl⟩ | ⟨a, b, rfl⟩ | ⟨a, b, c, rfl⟩
      · exact Or.inl (Or.inl ⟨a, rfl, hd a (by simp)⟩)
      · exact Or.inl (Or.inr ⟨[a], [b], rfl, ⟨a, rfl, hd a (by simp)⟩, ⟨b, rfl, hd b (by simp)⟩⟩)
      · exact Or.inr ⟨[a, b], [c], rfl, ⟨[a], [b], rfl, ⟨a, rfl, hd a (by simp)⟩,
          ⟨b, rfl, hd b (by simp)⟩⟩, ⟨c, rfl, hd c (by simp)⟩⟩
    · simp only [hm, if_false] at h
      obtain ⟨h1, h3, hd⟩ := h
      refine ⟨[], s, rfl, Or.inl rfl, ?_⟩
      rcases digits_cases s h1 h3 with ⟨a, rfl⟩ | ⟨a, b, rfl⟩ | ⟨a, b, c, rfl⟩
      · exact Or.inl (Or.inl ⟨a, rfl, hd a (by simp)⟩)
      · exact Or.inl (Or.inr ⟨[a], [b], rfl, ⟨a, rfl, hd a (by simp)⟩, ⟨b, rfl, hd b (by simp)⟩⟩)
      · exact Or.inr ⟨[a, b], [c], rfl, ⟨[a], [b], rfl, ⟨a, rfl, hd a (by simp)⟩,
          ⟨b, rfl, hd b (by simp)⟩⟩, ⟨c, rfl, hd c (by simp)⟩⟩

theorem digitValue_decimal (c : Nat) (h : 48 ≤ c ∧ c ≤ 57) : digitValue c = some (c - 48) := by
  simp [digitValue, h]

theorem takeDigits_decimal (ds : JSString) (h : ∀ c ∈ ds, 48 ≤ c ∧ c ≤ 57) :
    takeDigits 10 ds = ds.map (· - 48) := by
  induction ds with
  | nil => rfl
  | cons c cs ih =>
    have hc := h c (by simp)
    have hlt : c - 48 < 10 := by omega
    simp only [takeDigits, digitValue_decimal c hc, hlt, if_true, List.map_cons]
    rw [ih (fun x hx => h x (by simp [hx]))]

theorem foldl_eq_ofDigits (radix : Nat) (vs : List Nat) :
    vs.foldl (fun acc d => acc * radix + d) 0 = Nat.ofDigits radix vs.reverse := by
  induction vs using List.reverseRecOn with
  | nil => rfl
  | append_singleton vs v ih =>
    rw [List.foldl_append, List.reverse_append]
    simp only [List.foldl_cons, List.foldl_nil, List.reverse_cons, List.reverse_nil,
      List.nil_append, List.singleton_append, Nat.ofDigits_cons, ih]
    ring

theorem parseInt_integerText (s : JSString) (h : IsIntegerText s) :
    parseInt s 10 = .int (base10Value s) := by
  unfold IsIntegerText at h
  unfold base10Value
  by_cases hm : s.head? = some 45
  · obtain ⟨t, rfl⟩ : ∃ t, s = 45 :: t := by
      cases s with
      | nil => simp at hm
      | cons x t => simp at hm; exact ⟨t, by rw [hm]⟩
    simp only [List.head?_cons, if_true, List.tail_cons] at h ⊢
    obtain ⟨h1, _, hd⟩ := h
    obtain ⟨c, cs, rfl⟩ : ∃ c cs, t = c :: cs := by
      cases t with
      | nil => simp at h1
      | cons c cs => exact ⟨c, cs, rfl⟩
    have hc := hd c (by simp)
    rw [parseInt_minus_digits c cs (c - 48) (digitValue_decimal c hc) (by omega),
      takeDigits_decimal _ hd, foldl_eq_ofDigits]
  · simp only [hm, if_false] at h ⊢
    obtain ⟨h1, _, hd⟩ := h
    obtain ⟨c, cs, rfl⟩ : ∃ c cs, s = c :: cs := by
      cases s with
      | nil => simp at h1
      | cons c cs => exact ⟨c, cs, rfl⟩
    have hc := hd c (by simp)
    rw [parseInt_digits 10 c cs (c - 48) (digitValue_decimal c hc) (by omega) (by simp),
      takeDigits_decimal _ hd, foldl_eq_ofDigits]

/-- C5. For any bounds, and so for the four pairs the parser uses (rate -10 to
10, volume 1 to 100, quality 4 to 39, flags 0 to 16), `getInteger` accepts a
string exactly when it is an optional minus sign followed by 1 to 3 decimal
digits whose base-10 value lies within the bounds, and it then returns that
value; the boundary values are accepted and their neighbours rejected. -/
theorem getInteger_spec (str : JSString) (lower upper : Int) (what : String) :
    (∀ n, getInteger str lower upper what = .ok n ↔
      (IsIntegerText str ∧ lower ≤ base10Value str ∧ base10Value str ≤ upper ∧
        n = .int (base10Value str))) ∧
    getInteger (lit "11") (-10) 10 "rate" = .error (.outOfRange "rate") ∧
    getInteger (lit "-11") (-10) 10 "rate" = .error (.outOfRange "rate") ∧
    getInteger (lit "0") 1 100 "volume" = .error (.outOfRange "volume") ∧
    getInteger (lit "101") 1 100 "volume" = .error (.outOfRange "volume") ∧
    getInteger (lit "3") 4 39 "quality" = .error (.outOfRange "quality") ∧
    getInteger (lit "40") 4 39 "quality" = .error (.outOfRange "quality") ∧
    getInteger (lit "17") 0 16 "flags" = .error (.outOfRange "flags") ∧
    getInteger (lit "-1") 0 16 "flags" = .error (.outOfRange "flags") ∧
    getInteger (lit "10") (-10) 10 "rate" = .ok (.int 10) ∧
    getInteger (lit "-10") (-10) 10 "rate" = .ok (.int (-10)) ∧
    getInteger (lit "1") 1 100 "volume" = .ok (.int 1) ∧
    getInteger (lit "100") 1 100 "volume" = .ok (.int 100) ∧
    getInteger (lit "4") 4 39 "quality" = .ok (.int 4) ∧
    getInteger (lit "39") 4 39 "quality" = .ok (.int 39) ∧
    getInteger (lit "0") 0 16 "flags" = .ok (.int 0) ∧
    getInteger (lit "16") 0 16 "flags" = .ok (.int 16) := by
  refine ⟨?_, by decide⟩
  intro n
  unfold getInteger
  rw [test_anchored_both _ _ rfl rfl]
  by_cases ht : integerRegExp.body.rmatch str = true
  · have hi := (integerBody_rmatch str).mp ht
    simp only [ht, Bool.not_true, Bool.false_eq_true, if_false, parseInt_integerText str hi,
      JSNumber.lt, JSNumber.gt, Bool.or_eq_true, decide_eq_true_eq, hi, true_and]
    by_cases hr : base10Value str < lower ∨ upper < base10Value str
    · simp only [hr, if_true, reduceCtorEq, false_iff]
      omega
    · simp only [hr, if_false, Except.ok.injEq]
      constructor
      · intro h; exact ⟨by omega, by omega, h.symm⟩
      · intro h; exact h.2.2.symm
  · have hi : ¬ IsIntegerText str := fun h => ht ((integerBody_rmatch str).mpr h)
    simp [ht, hi]

/-! ## The argument parser -/

theorem errorOf_eq_none {α : Type} (x : Except Error α) (h : errorOf x = none) :
    ∃ v, x = .ok v := by
  cases x with
  | ok v => exact ⟨v, rfl⟩
  | error e => simp [errorOf] at h

theorem errorOf_eq_some {α : Type} (x : Except Error α) (e : Error) (h : errorOf x = some e) :
    x = .error e := by
  cases x with
  | ok v => simp [errorOf] at h
  | error e' => simp [errorOf] at h; rw [h]

/-- C4. `getUnicodeFromHex` enforces the length rule: a string that is empty,
shorter than 4 characters, or whose length is not a multiple of 4 makes it fail
with the invalid-hex-encoding error of the named field. -/
theorem getUnicodeFromHex_length_rule (h : JSString) (what : String)
    (hlen : h.length = 0 ∨ h.length < 4 ∨ h.length % 4 ≠ 0) :
    getUnicodeFromHex (.string h) what = .error (.invalidHexEncoding what) := by
  unfold getUnicodeFromHex
  have : (decide (h.length < 4) || decide (h.length % 4 ≠ 0)) = true := by
    simp only [Bool.or_eq_true, decide_eq_true_eq]
    omega
  simp only [this, if_true]

/-- Witness of C4: a 5-character hex string is rejected for the voice, and the
empty string for the phrase. -/
theorem getUnicodeFromHex_length_rule_witness :
    ((lit "e4bd0").length % 4 ≠ 0 ∧
      getUnicodeFromHex (.string (lit "e4bd0")) "voice" = .error (.invalidHexEncoding "voice")) ∧
    ((lit "").length = 0 ∧
      getUnicodeFromHex (.string (lit "")) "phrase" = .error (.invalidHexEncoding "phrase")) :=
  ⟨⟨by decide, getUnicodeFromHex_length_rule _ _ (Or.inr (Or.inr (by decide)))⟩,
    ⟨by decide, getUnicodeFromHex_length_rule _ _ (Or.inl (by decide))⟩⟩

/-- C7. On a vector of at least one argument: `voice-list` parses exactly when
it stands alone and otherwise fails with the unexpected-arguments error;
`speech-output` with a number of arguments other than 8 fails with the
wrong-argument-count error, whatever the arguments are; any other command
fails with the unrecognized-command error, whatever follows it. -/
theorem parseArguments_dispatch (argv : List JSString) (hargc : 1 ≤ argv.length) :
    (item argv 0 = lit "voice-list" →
      ((∃ r, parseArguments argv = .ok r) ↔ argv.length = 1) ∧
      (argv.length ≠ 1 → parseArguments argv = .error .unexpectedArguments)) ∧
    (item argv 0 = lit "speech-output" → argv.length ≠ 8 →
      parseArguments argv = .error .wrongArgumentCount) ∧
    (item argv 0 ≠ lit "voice-list" → item argv 0 ≠ lit "speech-output" →
      parseArguments argv = .error .unrecognizedCommand) := by
  have h0 : ¬ argv.length < 1 := by omega
  have hne : lit "speech-output" ≠ lit "voice-list" := by decide
  refine ⟨fun hc => ⟨?_, fun hn => ?_⟩, fun hc hn => ?_, fun h1 h2 => ?_⟩
  · unfold parseArguments
    by_cases h1 : argv.length > 1
    · simp only [h0, if_false, hc, if_true, h1, reduceCtorEq, exists_false, false_iff]
      omega
    · simp only [h0, if_false, hc, if_true, h1, Except.ok.injEq, exists_eq', true_iff]
      omega
  · unfold parseArguments
    have h1 : argv.length > 1 := by omega
    simp only [h0, if_false, hc, if_true, h1]
  · unfold parseArguments
    simp only [h0, if_false, hc, hne, if_true, hn, ne_eq, not_false_eq_true]
  · unfold parseArguments
    simp only [h0, if_false, h1, h2]

/-- Witness of C7: `voice-list` with one extra argument, `speech-output` with
6 and with 9 arguments, and an unknown command followed by 7 arguments. -/
theorem parseArguments_dispatch_witness :
    parseArguments [lit "voice-list", lit "x"] = .error .unexpectedArguments ∧
    parseArguments [lit "speech-output", lit "a.wav", lit "0", lit "100", lit "39", lit "0"] =
      .error .wrongArgumentCount ∧
    parseArguments [lit "speech-output", lit "a.wav", lit "0", lit "100", lit "39", lit "0",
      lit "0041", lit "0041", lit "0041"] = .error .wrongArgumentCount ∧
    parseArguments [lit "speak", lit "a.wav", lit "0", lit "100", lit "39", lit "0",
      lit "0041", lit "0041"] = .error .unrecognizedCommand :=
  ⟨((parseArguments_dispatch _ (by decide)).1 (by decide)).2 (by decide),
    (parseArguments_dispatch _ (by decide)).2.1 (by decide) (by decide),
    (parseArguments_dispatch _ (by decide)).2.1 (by decide) (by decide),
    (parseArguments_dispatch _ (by decide)).2.2 (by decide) (by decide)⟩

/-- C8. In an 8-argument `speech-output` vector, the error thrown is the one of
the earliest invalid parameter in the order file, rate, volume, quality, flags,
voice, phrase, whatever the later parameters are. -/
theorem parseArguments_first_failure (argv : List JSString) (h8 : argv.length = 8)
    (hcmd : item argv 0 = lit "speech-output") (k : Fin 7) (e : Error)
    (hk : parameterError argv k = some e)
    (hbefore : ∀ j, j < k → parameterError argv j = none) :
    parseArguments argv = .error e := by
  have hne : lit "speech-output" ≠ lit "voice-list" := by decide
  unfold parseArguments
  simp only [h8, hcmd, hne, if_false, if_true, ne_eq, not_true_eq_false, Nat.reduceLT]
  unfold readOptions
  fin_cases k
  · have := errorOf_eq_some _ _ hk
    simp only [this]; rfl
  · obtain ⟨v0, h0⟩ := errorOf_eq_none _ (hbefore 0 (by decide))
    have := errorOf_eq_some _ _ hk
    simp only [h0, this]; rfl
  · obtain ⟨v0, h0⟩ := errorOf_eq_none _ (hbefore 0 (by decide))
    obtain ⟨v1, h1⟩ := errorOf_eq_none _ (hbefore 1 (by decide))
    have := errorOf_eq_some _ _ hk
    simp only [h0, h1, this]; rfl
  · obtain ⟨v0, h0⟩ := errorOf_eq_none _ (hbefore 0 (by decide))
    obtain ⟨v1, h1⟩ := errorOf_eq_none _ (hbefore 1 (by decide))
    obtain ⟨v2, h2⟩ := errorOf_eq_none _ (hbefore 2 (by decide))
    have := errorOf_eq_some _ _ hk
    simp only [h0, h1, h2, this]; rfl
  · obtain ⟨v0, h0⟩ := errorOf_eq_none _ (hbefore 0 (by decide))
    obtain ⟨v1, h1⟩ := errorOf_eq_none _ (hbefore 1 (by decide))
    obtain ⟨v2, h2⟩ := errorOf_eq_none _ (hbefore 2 (by decide))
    obtain ⟨v3, h3⟩ := errorOf_eq_none _ (hbefore 3 (by decide))
    have := errorOf_eq_some _ _ hk
    simp only [h0, h1, h2, h3, this]; rfl
  · obtain ⟨v0, h0⟩ := errorOf_eq_none _ (hbefore 0 (by decide))
    obtain ⟨v1, h1⟩ := errorOf_eq_none _ (hbefore 1 (by decide))
    obtain ⟨v2, h2⟩ := errorOf_eq_none _ (hbefore 2 (by decide))
    obtain ⟨v3, h3⟩ := errorOf_eq_none _ (hbefore 3 (by decide))
    obtain ⟨v4, h4⟩ := errorOf_eq_none _ (hbefore 4 (by decide))
    have := errorOf_eq_some _ _ hk
    simp only [h0, h1, h2, h3, h4, this]; rfl
  · obtain ⟨v0, h0⟩ := errorOf_eq_none _ (hbefore 0 (by decide))
    obtain ⟨v1, h1⟩ := errorOf_eq_none _ (hbefore 1 (by decide))
    obtain ⟨v2, h2⟩ := errorOf_eq_none _ (hbefore 2 (by decide))
    obtain ⟨v3, h3⟩ := errorOf_eq_none _ (hbefore 3 (by decide))
    obtain ⟨v4, h4⟩ := errorOf_eq_none _ (hbefore 4 (by decide))
    obtain ⟨v5, h5⟩ := errorOf_eq_none _ (hbefore 5 (by decide))
    have := errorOf_eq_some _ _ hk
    simp only [h0, h1, h2, h3, h4, h5, this]; rfl

/-- Witness of C8: an invalid file with an out-of-range rate fails on the file,
and an invalid volume with an invalid phrase fails on the volume. -/
theorem parseArguments_first_failure_witness :
    parseArguments [lit "speech-output", lit "out.mp3", lit "11", lit "100", lit "39", lit "0",
      lit "0041", lit "0041"] = .error .invalidWavePath ∧
    parseArguments [lit "speech-output", lit "a.wav", lit "0", lit "101", lit "39", lit "0",
      lit "0041", lit "zz"] = .error (.outOfRange "volume") :=
  ⟨parseArguments_first_failure _ (by decide) (by decide) 0 .invalidWavePath (by decide)
      (by decide),
    parseArguments_first_failure _ (by decide) (by decide) 2 (.outOfRange "volume") (by decide)
      (by decide)⟩

/-! ## The hex codec -/

theorem toDigitsAux_fuel (radix : Nat) :
    ∀ (fuel n : Nat) (acc : JSString), n < radix ^ (fuel + 1) → ∀ k,
      toDigitsAux radix (fuel + 1 + k) n acc = toDigitsAux radix (fuel + 1) n acc := by
  intro fuel
  induction fuel with
  | zero =>
    intro n acc hn k
    have h0 : n / radix = 0 := Nat.div_eq_of_lt (by simpa using hn)
    have e : 0 + 1 + k = k + 1 := by omega
    rw [e]
    simp [toDigitsAux, h0]
  | succ f ih =>
    intro n acc hn k
    have e : f + 1 + 1 + k = (f + 1 + k) + 1 := by omega
    rw [e]
    simp only [toDigitsAux]
    by_cases h0 : n / radix = 0
    · simp [h0]
    · simp only [h0, if_false]
      have := ih (n / radix) (digitChar (n % radix) :: acc)
        (by rw [pow_succ] at hn; exact Nat.div_lt_of_lt_mul (by rw [Nat.mul_comm]; exact hn)) k
      simpa [toDigitsAux] using this

theorem numberToString_16 (c : Nat) (hc : c < 65536) :
    numberToString c 16 = toDigitsAux 16 4 c [] := by
  unfold numberToString
  by_cases h : 4 ≤ c + 1
  · obtain ⟨k, hk⟩ : ∃ k, c + 1 = 4 + k := ⟨c + 1 - 4, by omega⟩
    rw [hk]
    exact toDigitsAux_fuel 16 3 c [] (by simpa using hc) k
  · have hc3 : c < 3 := by omega
    interval_cases c <;> rfl

theorem encodeLoop_cons (c : Nat) (cs : JSString) (hex : List JSString) (hc : c < 65536) :
    encodeLoop (c :: cs) hex = encodeLoop cs (hex ++ [hex4 c]) := by
  rw [encodeLoop, numberToString_16 c hc]
  simp only [toDigitsAux]
  by_cases h1 : c / 16 = 0
  · have e1 : c / 4096 % 16 = 0 := by omega
    have e2 : c / 256 % 16 = 0 := by omega
    have e3 : c / 16 % 16 = 0 := by omega
    simp [h1, hex4, e1, e2, e3, digitChar, lit]
  · by_cases h2 : c / 16 / 16 = 0
    · have e1 : c / 4096 % 16 = 0 := by omega
      have e2 : c / 256 % 16 = 0 := by omega
      simp [h1, h2, hex4, e1, e2, digitChar, lit]
    · by_cases h3 : c / 16 / 16 / 16 = 0
      · have e1 : c / 4096 % 16 = 0 := by omega
        have e2 : c / 256 % 16 = c / 16 / 16 % 16 := by omega
        simp [h1, h2, h3, hex4, e1, e2, digitChar, lit]
      · have e0 : c / 16 / 16 / 16 / 16 = 0 := by omega
        have e1 : c / 4096 % 16 = c / 16 / 16 / 16 % 16 := by omega
        have e2 : c / 256 % 16 = c / 16 / 16 % 16 := by omega
        simp [h1, h2, h3, e0, hex4, e1, e2, digitChar, lit]

theorem encodeLoop_eq (u : JSString) (hu : IsUtf16 u) :
    ∀ hex, encodeLoop u hex = .ok (hex ++ u.map hex4) := by
  induction u with
  | nil => intro hex; simp [encodeLoop]
  | cons c cs ih =>
    intro hex
    rw [encodeLoop_cons c cs hex (hu c (by simp)), ih (fun x hx => hu x (by simp [hx]))]
    simp

theorem getHexFromUnicode_eq (u : JSString) (hu : IsUtf16 u) :
    getHexFromUnicode (.string u) = .ok (u.map hex4).flatten := by
  unfold getHexFromUnicode
  by_cases h0 : u.length = 0
  · have : u = [] := List.length_eq_zero.mp h0
    subst this
    rfl
  · simp only [h0, if_false, encodeLoop_eq u hu, List.nil_append]
    rfl

theorem quads_length (h : JSString) : (quads h).length = h.length / 4 := by
  induction h using quads.induct with
  | case1 a b c d rest ih =>
    simp only [quads, List.length_cons, ih]
    omega
  | case2 l hl =>
    have hlen : l.length < 4 := by
      match l, hl with
      | [], _ => simp
      | [_], _ => simp
      | [_, _], _ => simp
      | [_, _, _], _ => simp
      | a :: b :: c :: d :: rest, hl => exact absurd rfl (hl a b c d rest)
    rw [quads]
    · simp; omega
    · exact hl

theorem decodeLoop_eq (hex : JSString) :
    ∀ (fuel i : Nat) (unicode : List JSNumber), hex.length - i ≤ 4 * fuel →
      (hex.length - i) % 4 = 0 →
      decodeLoop hex fuel i unicode =
        unicode ++ (quads (hex.drop i)).map (fun q => parseInt q 16) := by
  intro fuel
  induction fuel with
  | zero =>
    intro i unicode hf _
    have : hex.drop i = [] := List.drop_eq_nil_of_le (by omega)
    simp [decodeLoop, this, quads]
  | succ f ih =>
    intro i unicode hf hm
    by_cases hi : i < hex.length
    · have hlen : 4 ≤ (hex.drop i).length := by rw [List.length_drop]; omega
      obtain ⟨a, b, c, d, rest, hd⟩ : ∃ a b c d rest, hex.drop i = a :: b :: c :: d :: rest := by
        match hex.drop i, hlen with
        | a :: b :: c :: d :: rest, _ => exact ⟨a, b, c, d, rest, rfl⟩
      have hrest : hex.drop (i + 4) = rest := by
        rw [← List.drop_drop, hd]; rfl
      simp only [decodeLoop, hi, if_true, substr, hd]
      rw [ih (i + 4) _ (by omega) (by omega), hrest]
      simp [quads]
    · have : hex.drop i = [] := List.drop_eq_nil_of_le (by omega)
      simp [decodeLoop, hi, this, quads]

theorem getUnicodeFromHex_eq (h : JSString) (what : String) (h4 : 4 ≤ h.length)
    (hm : h.length % 4 = 0) :
    getUnicodeFromHex (.string h) what =
      .ok ((quads h).map (fun q => toUint16 (parseInt q 16))) := by
  unfold getUnicodeFromHex
  have hg : (decide (h.length < 4) || decide (h.length % 4 ≠ 0)) = false := by
    simp only [Bool.or_eq_false_iff, decide_eq_false_iff_not]
    omega
  simp only [hg, Bool.false_eq_true, if_false]
  rw [decodeLoop_eq h h.length 0 [] (by omega) (by simpa using hm)]
  simp [fromCharCode]

theorem digitValue_hexDigit (c : Nat) (h : IsHexDigit c) :
    ∃ d, digitValue c = some d ∧ d < 16 ∧ digitChar d = asciiLower c := by
  unfold IsHexDigit at h
  rcases h with h | h | h
  · exact ⟨c - 48, by simp [digitValue, h], by omega, by
      have h1 : c - 48 < 10 := by omega
      have h2 : ¬ (65 ≤ c ∧ c ≤ 90) := by omega
      simp only [digitChar, h1, if_true, asciiLower, h2, if_false]; omega⟩
  · have h0 : ¬ (48 ≤ c ∧ c ≤ 57) := by omega
    have h1 : 97 ≤ c ∧ c ≤ 122 := by omega
    exact ⟨c - 87, by simp [digitValue, h0, h1], by omega, by
      have h3 : ¬ (c - 87 < 10) := by omega
      have h2 : ¬ (65 ≤ c ∧ c ≤ 90) := by omega
      simp only [digitChar, h3, if_false, asciiLower, h2]; omega⟩
  · have h0 : ¬ (48 ≤ c ∧ c ≤ 57) := by omega
    have h1 : ¬ (97 ≤ c ∧ c ≤ 122) := by omega
    have h2 : 65 ≤ c ∧ c ≤ 90 := by omega
    exact ⟨c - 55, by simp [digitValue, h0, h1, h2], by omega, by
      have h3 : ¬ (c - 55 < 10) := by omega
      rw [digitChar, if_neg h3, asciiLower, if_pos h2]; omega⟩

theorem digitValue_lt_16 (c d : Nat) (h : digitValue c = some d) (hd : d < 16) :
    c ≠ 120 ∧ c ≠ 88 := by
  constructor
  · rintro rfl
    simp [digitValue] at h; omega
  · rintro rfl
    simp [digitValue] at h; omega

theorem parseInt_quad (a b c d da db dc dd : Nat)
    (ha : digitValue a = some da) (hb : digitValue b = some db)
    (hc : digitValue c = some dc) (hd : digitValue d = some dd)
    (la : da < 16) (lb : db < 16) (lc : dc < 16) (ld : dd < 16) :
    parseInt [a, b, c, d] 16 = .int ((da * 4096 + db * 256 + dc * 16 + dd : Nat) : Int) := by
  have hx := digitValue_lt_16 b db hb lb
  rw [parseInt_digits 16 a [b, c, d] da ha la (fun _ => by simp [hx.1, hx.2])]
  simp only [takeDigits, ha, hb, hc, hd, la, lb, lc, ld, if_true, List.foldl_cons, List.foldl_nil]
  congr 2
  ring

theorem digitValue_digitChar (n : Nat) (h : n < 16) : digitValue (digitChar n) = some n := by
  unfold digitChar
  by_cases h10 : n < 10
  · have : 48 ≤ 48 + n ∧ 48 + n ≤ 57 := by omega
    simp [h10, digitValue, this]
  · have h0 : ¬ (48 ≤ 87 + n ∧ 87 + n ≤ 57) := by omega
    have h1 : 97 ≤ 87 + n ∧ 87 + n ≤ 122 := by omega
    simp [h10, digitValue, h0, h1]

theorem toUint16_int (c : Nat) (h : c < 65536) : toUint16 (.int (c : Int)) = c := by
  simp only [toUint16]
  omega

theorem decode_hex4 (c : Nat) (h : c < 65536) : toUint16 (parseInt (hex4 c) 16) = c := by
  unfold hex4
  rw [parseInt_quad _ _ _ _ _ _ _ _
    (digitValue_digitChar _ (Nat.mod_lt _ (by decide)))
    (digitValue_digitChar _ (Nat.mod_lt _ (by decide)))
    (digitValue_digitChar _ (Nat.mod_lt _ (by decide)))
    (digitValue_digitChar _ (Nat.mod_lt _ (by decide)))
    (Nat.mod_lt _ (by decide)) (Nat.mod_lt _ (by decide)) (Nat.mod_lt _ (by decide))
    (Nat.mod_lt _ (by decide))]
  have e : c / 4096 % 16 * 4096 + c / 256 % 16 * 256 + c / 16 % 16 * 16 + c % 16 = c := by omega
  rw [e, toUint16_int c h]

theorem quads_hex4 (s : JSString) : quads (s.map hex4).flatten = s.map hex4 := by
  induction s with
  | nil => rfl
  | cons c cs ih =>
    have e : (List.map hex4 (c :: cs)).flatten =
        digitChar (c / 4096 % 16) :: digitChar (c / 256 % 16) :: digitChar (c / 16 % 16) ::
          digitChar (c % 16) :: (List.map hex4 cs).flatten := rfl
    rw [e, quads, ih]
    rfl

theorem quads_hex4_decode (s : JSString) (hs : IsUtf16 s) :
    (quads (s.map hex4).flatten).map (fun q => toUint16 (parseInt q 16)) = s := by
  rw [quads_hex4, List.map_map]
  conv_rhs => rw [← List.map_id s]
  apply List.map_congr_left
  intro c hc
  exact decode_hex4 c (hs c hc)

/-- C1, amended. For every non-empty text built from 16-bit code units,
`getHexFromUnicode` returns a hex string that `getUnicodeFromHex` accepts and
decodes to exactly that text. -/
theorem decode_encode (s : JSString) (what : String) (hs : IsUtf16 s) (hne : s ≠ []) :
    ∃ h, getHexFromUnicode (.string s) = .ok h ∧ getUnicodeFromHex (.string h) what = .ok s := by
  refine ⟨(s.map hex4).flatten, getHexFromUnicode_eq s hs, ?_⟩
  have hl : (s.map hex4).flatten.length = 4 * s.length := by
    clear hs hne
    induction s with
    | nil => rfl
    | cons c cs ih => simp only [List.map_cons, List.flatten_cons, List.length_append, ih, hex4,
        List.length_cons, List.length_nil]; omega
  have hpos : 0 < s.length := List.length_pos.mpr hne
  rw [getUnicodeFromHex_eq _ what (by omega) (by omega), quads_hex4_decode s hs]

theorem hex4_quad (a b c d : Nat) (ha : IsHexDigit a) (hb : IsHexDigit b) (hc : IsHexDigit c)
    (hd : IsHexDigit d) :
    toUint16 (parseInt [a, b, c, d] 16) < 65536 ∧
      hex4 (toUint16 (parseInt [a, b, c, d] 16)) = [a, b, c, d].map asciiLower := by
  obtain ⟨da, va, la, ea⟩ := digitValue_hexDigit a ha
  obtain ⟨db, vb, lb, eb⟩ := digitValue_hexDigit b hb
  obtain ⟨dc, vc, lc, ec⟩ := digitValue_hexDigit c hc
  obtain ⟨dd, vd, ld, ed⟩ := digitValue_hexDigit d hd
  have hv : da * 4096 + db * 256 + dc * 16 + dd < 65536 := by omega
  rw [parseInt_quad a b c d da db dc dd va vb vc vd la lb lc ld, toUint16_int _ hv]
  refine ⟨hv, ?_⟩
  have e1 : (da * 4096 + db * 256 + dc * 16 + dd) / 4096 % 16 = da := by omega
  have e2 : (da * 4096 + db * 256 + dc * 16 + dd) / 256 % 16 = db := by omega
  have e3 : (da * 4096 + db * 256 + dc * 16 + dd) / 16 % 16 = dc := by omega
  have e4 : (da * 4096 + db * 256 + dc * 16 + dd) % 16 = dd := by omega
  simp only [hex4, e1, e2, e3, e4, ea, eb, ec, ed, List.map_cons, List.map_nil]

theorem encode_quads (h : JSString) (hm : h.length % 4 = 0) (hd : ∀ c ∈ h, IsHexDigit c) :
    IsUtf16 ((quads h).map (fun q => toUint16 (parseInt q 16))) ∧
      (((quads h).map (fun q => toUint16 (parseInt q 16))).map hex4).flatten =
        h.map asciiLower := by
  induction h using quads.induct with
  | case1 a b c d rest ih =>
    have hq := hex4_quad a b c d (hd a (by simp)) (hd b (by simp)) (hd c (by simp))
      (hd d (by simp))
    obtain ⟨ih1, ih2⟩ := ih (by simp only [List.length_cons] at hm; omega)
      (fun x hx => hd x (by simp [hx]))
    constructor
    · intro x hx
      simp only [quads, List.map_cons, List.mem_cons] at hx
      rcases hx with rfl | hx
      · exact hq.1
      · exact ih1 x hx
    · simp only [quads, List.map_cons, List.flatten_cons, ih2, hq.2]
      rfl
  | case2 l hl =>
    have hlen : l.length < 4 := by
      match l, hl with
      | [], _ => simp
      | [_], _ => simp
      | [_, _], _ => simp
      | [_, _, _], _ => simp
      | a :: b :: c :: d :: rest, hl => exact absurd rfl (hl a b c d rest)
    have : l = [] := List.length_eq_zero.mp (by omega)
    subst this
    exact ⟨by intro x hx; simp [quads] at hx, rfl⟩

/-- C2. For every non-empty string of hexadecimal digits of either case whose
length is a multiple of 4, `getUnicodeFromHex` succeeds, and `getHexFromUnicode`
of the decoded text is the string with its letters lower-cased. -/
theorem encode_decode (h : JSString) (what : String) (hne : h ≠ []) (hm : h.length % 4 = 0)
    (hd : ∀ c ∈ h, IsHexDigit c) :
    ∃ u, getUnicodeFromHex (.string h) what = .ok u ∧
      getHexFromUnicode (.string u) = .ok (h.map asciiLower) := by
  have hpos : 0 < h.length := List.length_pos.mpr hne
  obtain ⟨h1, h2⟩ := encode_quads h hm hd
  exact ⟨_, getUnicodeFromHex_eq h what (by omega) hm, by rw [getHexFromUnicode_eq _ h1, h2]⟩

/-- Witness of C2: the mixed-case string `E4bd00Ff`. -/
theorem encode_decode_witness :
    (lit "E4bd00Ff" ≠ [] ∧ (lit "E4bd00Ff").length % 4 = 0 ∧ ∀ c ∈ lit "E4bd00Ff", IsHexDigit c) ∧
    ∃ u, getUnicodeFromHex (.string (lit "E4bd00Ff")) "phrase" = .ok u ∧
      getHexFromUnicode (.string u) = .ok (lit "e4bd00ff") :=
  ⟨by decide, encode_decode (lit "E4bd00Ff") "phrase" (by decide) (by decide) (by decide)⟩

/-- Witness of C1, amended: the text of code units E4BD, 0, FFFF and 41. -/
theorem decode_encode_witness :
    (IsUtf16 [0xE4BD, 0, 65535, 65] ∧ [0xE4BD, 0, 65535, 65] ≠ []) ∧
    ∃ h, getHexFromUnicode (.string [0xE4BD, 0, 65535, 65]) = .ok h ∧
      getUnicodeFromHex (.string h) "voice" = .ok [0xE4BD, 0, 65535, 65] :=
  ⟨by decide, decode_encode _ "voice" (by decide) (by decide)⟩

/-- Counterexample to C1: the empty text is encoded as the empty string, which
the decoder rejects with the invalid-hex-encoding error. -/
theorem decode_encode_empty :
    IsUtf16 [] ∧ getHexFromUnicode (.string []) = .ok [] ∧
      getUnicodeFromHex (.string []) "voice" = .error (.invalidHexEncoding "voice") := by
  decide

/-- C3, amended. The decoder does not reject non-hex input. For every string
whose length is a positive multiple of 4, whatever its characters,
`getUnicodeFromHex` does not fail: it returns one code unit per 4-character
chunk, the ToUint16 of `parseInt(chunk, 16)`. So every 8-argument
`speech-output` vector whose file, rate, volume, quality and flags are valid
and whose voice and phrase each have a length that is a positive multiple of 4
is accepted, with the decoded texts as `options.voice` and `options.phrase`,
whatever the characters of the voice and the phrase. -/
theorem getUnicodeFromHex_ignores_characters (h : JSString) (what : String)
    (hpos : 0 < h.length) (hm : h.length % 4 = 0) :
    (getUnicodeFromHex (.string h) what =
        .ok ((quads h).map (fun q => toUint16 (parseInt q 16))) ∧
      ((quads h).map (fun q => toUint16 (parseInt q 16))).length = h.length / 4) ∧
    (∀ argv : List JSString, argv.length = 8 → item argv 0 = lit "speech-output" →
      (∀ k : Fin 7, k.val < 5 → parameterError argv k = none) →
      0 < (item argv 6).length → (item argv 6).length % 4 = 0 →
      0 < (item argv 7).length → (item argv 7).length % 4 = 0 →
      ∃ o, parseArguments argv = .ok (lit "speech-output", o) ∧
        o.voice = .string ((quads (item argv 6)).map (fun q => toUint16 (parseInt q 16))) ∧
        o.phrase = .string ((quads (item argv 7)).map (fun q => toUint16 (parseInt q 16)))) := by
  refine ⟨⟨getUnicodeFromHex_eq h what (by omega) hm, ?_⟩, ?_⟩
  · rw [List.length_map, quads_length]
  · intro argv h8 hcmd hvalid hv0 hv4 hp0 hp4
    have hne : lit "speech-output" ≠ lit "voice-list" := by decide
    obtain ⟨v0, e0⟩ := errorOf_eq_none _ (hvalid 0 (by decide))
    obtain ⟨v1, e1⟩ := errorOf_eq_none _ (hvalid 1 (by decide))
    obtain ⟨v2, e2⟩ := errorOf_eq_none _ (hvalid 2 (by decide))
    obtain ⟨v3, e3⟩ := errorOf_eq_none _ (hvalid 3 (by decide))
    obtain ⟨v4, e4⟩ := errorOf_eq_none _ (hvalid 4 (by decide))
    have e5 := getUnicodeFromHex_eq (item argv 6) "voice" (by omega) hv4
    have e6 := getUnicodeFromHex_eq (item argv 7) "phrase" (by omega) hp4
    refine ⟨{ file := .string v0, rate := .number v1, volume := .number v2,
              quality := .number v3, flags := .number v4,
              voice := .string ((quads (item argv 6)).map (fun q => toUint16 (parseInt q 16))),
              phrase := .string ((quads (item argv 7)).map (fun q => toUint16 (parseInt q 16))) },
      ?_, rfl, rfl⟩
    unfold parseArguments
    simp only [h8, hcmd, hne, if_false, if_true, ne_eq, not_true_eq_false, Nat.reduceLT]
    unfold readOptions
    simp only [e0, e1, e2, e3, e4, e5, e6]
    rfl

/-- Witness of C3, amended: the chunks `-001`, ` 12 `, `+0x1` and `zz00` are
decoded to the code units FFFF, 12, 1 and 0, and a `speech-output` vector with
the voice `zz00` and the phrase `12zz0x1f` is accepted. -/
theorem getUnicodeFromHex_ignores_characters_witness :
    (0 < (lit "-001 12 +0x1zz00").length ∧ (lit "-001 12 +0x1zz00").length % 4 = 0) ∧
    getUnicodeFromHex (.string (lit "-001 12 +0x1zz00")) "phrase" =
      .ok [0xFFFF, 0x12, 1, 0] ∧
    ∃ o, parseArguments [lit "speech-output", lit "a.wav", lit "0", lit "100", lit "39",
        lit "0", lit "zz00", lit "12zz0x1f"] = .ok (lit "speech-output", o) ∧
      o.voice = .string [0] ∧ o.phrase = .string [0x12, 0x1f] :=
  ⟨by decide,
    (getUnicodeFromHex_ignores_characters (lit "-001 12 +0x1zz00") "phrase" (by decide)
      (by decide)).1.1,
    (getUnicodeFromHex_ignores_characters (lit "zz00") "voice" (by decide) (by decide)).2
      [lit "speech-output", lit "a.wav", lit "0", lit "100", lit "39", lit "0", lit "zz00",
        lit "12zz0x1f"]
      (by decide) (by decide) (by decide) (by decide) (by decide) (by decide) (by decide)⟩

/-- Counterexample to C3: `zz00` has length 4 and holds characters that are not
hexadecimal digits, yet it is decoded (to the code unit 0), and a
`speech-output` invocation with it as the voice is accepted. -/
theorem getUnicodeFromHex_nonhex :
    (0 < (lit "zz00").length ∧ (lit "zz00").length % 4 = 0 ∧ ∃ c ∈ lit "zz00", ¬ IsHexDigit c) ∧
    getUnicodeFromHex (.string (lit "zz00")) "voice" = .ok [0] ∧
    ∃ r, parseArguments [lit "speech-output", lit "a.wav", lit "0", lit "100", lit "39",
      lit "0", lit "zz00", lit "0041"] = .ok r := by
  refine ⟨by decide, by decide, ?_⟩
  exact ⟨_, rfl⟩

/-! ## Voice listing -/

/-- C9, the code at the failing input: for a voice named Alice (language en-US)
followed by a voice whose name lookup raises (language de-DE), `voice-list`
echoes two data lines after the marker, the second one under the name Alice
again. -/
theorem voiceList_stale_name :
    run (platformOf [⟨.ok (.string (lit "Alice")), .ok (.string (lit "en-US"))⟩,
        ⟨.error (.platformError 0), .ok (.string (lit "de-DE"))⟩]) [lit "voice-list"] =
      ([.createObject "SAPI.SpVoice", .getVoices, .echo (lit "__AWESOMETTS_VOICE_LIST__"),
        .echo (lit "0041006c006900630065 0065006e002d00550053"),
        .echo (lit "0041006c006900630065 00640065002d00440045")], .ok ()) ∧
    getHexFromUnicode (.string (lit "Alice")) = .ok (lit "0041006c006900630065") ∧
    getHexFromUnicode (.string (lit "en-US")) = .ok (lit "0065006e002d00550053") ∧
    getHexFromUnicode (.string (lit "de-DE")) = .ok (lit "00640065002d00440045") := by
  decide

/-- C10, the code at the failing input: for a voice with language en-US
followed by a voice named Bob whose language lookup raises, the data line of
Bob carries the hex of en-US, not of `unknown`. -/
theorem voiceList_stale_language :
    run (platformOf [⟨.ok (.string (lit "Alice")), .ok (.string (lit "en-US"))⟩,
        ⟨.ok (.string (lit "Bob")), .error (.platformError 0)⟩]) [lit "voice-list"] =
      ([.createObject "SAPI.SpVoice", .getVoices, .echo (lit "__AWESOMETTS_VOICE_LIST__"),
        .echo (lit "0041006c006900630065 0065006e002d00550053"),
        .echo (lit "0042006f0062 0065006e002d00550053")], .ok ()) ∧
    getHexFromUnicode (.string (lit "Bob")) = .ok (lit "0042006f0062") ∧
    getHexFromUnicode (.string (lit "en-US")) = .ok (lit "0065006e002d00550053") ∧
    getHexFromUnicode (.string (lit "unknown")) = .ok (lit "0075006e006b006e006f0077006e") := by
  decide

/-! ## The run of the script -/

theorem run_of_parsed (p : Platform) (argv : List JSString) (command : JSString)
    (options : Options) (hparse : parseArguments argv = .ok (command, options))
    (hsapi : p.spVoice = .ok .object) (hget : p.getVoices = .ok .object) :
    run p argv =
      if p.voices.length < 1 then
        ([.createObject "SAPI.SpVoice", .getVoices], .error .noVoicesInstalled)
      else if command = lit "voice-list" then
        ([.createObject "SAPI.SpVoice", .getVoices] ++ (voiceList p.voices).1.map .echo,
          (voiceList p.voices).2)
      else if command = lit "speech-output" then
        speechOutput p options [.createObject "SAPI.SpVoice", .getVoices]
      else ([.createObject "SAPI.SpVoice", .getVoices], .ok ()) := by
  unfold run
  simp only [hparse, hsapi, hget, ne_eq, not_true_eq_false, if_false, List.singleton_append]

/-- C12. When the parser rejects the argument vector, the run ends with the
parser's error and an empty trace: nothing is echoed and no platform call is
made (no object created, no voice enumerated, no file opened, no speak). -/
theorem run_rejected (p : Platform) (argv : List JSString) (e : Error)
    (h : parseArguments argv = .error e) : run p argv = ([], .error e) := by
  unfold run
  simp only [h]

/-- Witness of C12: an unknown command, a `speech-output` with 6 arguments and
a `speech-output` with an out-of-range rate, on a platform with one voice. -/
theorem run_rejected_witness :
    run (platformOf [⟨.ok (.string (lit "Alice")), .ok (.string (lit "en-US"))⟩])
      [lit "speak"] = ([], .error .unrecognizedCommand) ∧
    run (platformOf [⟨.ok (.string (lit "Alice")), .ok (.string (lit "en-US"))⟩])
      [lit "speech-output", lit "a.wav", lit "0", lit "100", lit "39", lit "0"] =
      ([], .error .wrongArgumentCount) ∧
    run (platformOf [⟨.ok (.string (lit "Alice")), .ok (.string (lit "en-US"))⟩])
      [lit "speech-output", lit "a.wav", lit "11", lit "100", lit "39", lit "0",
        lit "0041006c006900630065", lit "0041"] = ([], .error (.outOfRange "rate")) :=
  ⟨run_rejected _ _ _ (by decide), run_rejected _ _ _ (by decide),
    run_rejected _ _ _ (by decide)⟩

/-- C15. When the argument vector is valid and the platform enumerates zero
voices, the run fails with the no-voices-installed error straight after
`getVoices`: nothing is echoed (not even the marker) and no file is opened. -/
theorem run_no_voices (p : Platform) (argv : List JSString) (r : JSString × Options)
    (hparse : parseArguments argv = .ok r) (hsapi : p.spVoice = .ok .object)
    (hget : p.getVoices = .ok .object) (hnone : p.voices = []) :
    run p argv = ([.createObject "SAPI.SpVoice", .getVoices], .error .noVoicesInstalled) := by
  rw [run_of_parsed p argv r.1 r.2 hparse hsapi hget]
  simp [hnone]

/-- Witness of C15: `voice-list` and a valid `speech-output` on a platform
without voices. -/
theorem run_no_voices_witness :
    run (platformOf []) [lit "voice-list"] =
      ([.createObject "SAPI.SpVoice", .getVoices], .error .noVoicesInstalled) ∧
    run (platformOf []) [lit "speech-output", lit "a.wav", lit "0", lit "100", lit "39",
      lit "0", lit "0041006c006900630065", lit "0041"] =
      ([.createObject "SAPI.SpVoice", .getVoices], .error .noVoicesInstalled) :=
  ⟨run_no_voices _ _ (lit "voice-list", {}) (by decide) rfl rfl rfl,
    run_no_voices _ _
      (lit "speech-output",
        { file := .string (lit "a.wav"), rate := .number (.int 0), volume := .number (.int 100),
          quality := .number (.int 39), flags := .number (.int 0),
          voice := .string (lit "Alice"), phrase := .string (lit "A") })
      (by decide) rfl rfl rfl⟩

/-! ## The validated options -/

theorem getWavePath_ok (p r : JSString) (h : getWavePath p = .ok r) :
    r = p ∧ 5 ≤ p.length ∧ EndsInWav p := by
  unfold getWavePath at h
  by_cases h5 : p.length < 5
  · simp [h5] at h
  · by_cases ht : wavRegExp.test p = true
    · simp only [h5, ht, decide_False, Bool.not_true, Bool.or_self, Bool.false_eq_true,
        if_false, Except.ok.injEq] at h
      exact ⟨h.symm, by omega, (wavRegExp_test p).mp ht⟩
    · simp [h5, ht] at h

theorem getInteger_ok (str : JSString) (lower upper : Int) (what : String) (n : JSNumber)
    (h : getInteger str lower upper what = .ok n) :
    n = .int (base10Value str) ∧ IsIntegerText str ∧ lower ≤ base10Value str ∧
      base10Value str ≤ upper := by
  unfold getInteger at h
  rw [test_anchored_both _ _ rfl rfl] at h
  by_cases ht : integerRegExp.body.rmatch str = true
  · have hi := (integerBody_rmatch str).mp ht
    simp only [ht, Bool.not_true, Bool.false_eq_true, if_false, parseInt_integerText str hi,
      JSNumber.lt, JSNumber.gt, Bool.or_eq_true, decide_eq_true_eq] at h
    by_cases hr : base10Value str < lower ∨ upper < base10Value str
    · simp [hr] at h
    · simp only [hr, if_false, Except.ok.injEq] at h
      exact ⟨h.symm, hi, by omega, by omega⟩
  · simp [ht] at h

theorem getUnicodeFromHex_ok (h : JSString) (what : String) (u : JSString)
    (hu : getUnicodeFromHex (.string h) what = .ok u) :
    4 ≤ h.length ∧ h.length % 4 = 0 ∧ u.length = h.length / 4 ∧
      u = (quads h).map (fun q => toUint16 (parseInt q 16)) := by
  by_cases hg : 4 ≤ h.length ∧ h.length % 4 = 0
  · rw [getUnicodeFromHex_eq h what hg.1 hg.2] at hu
    simp only [Except.ok.injEq] at hu
    refine ⟨hg.1, hg.2, ?_, hu.symm⟩
    rw [← hu, List.length_map, quads_length]
  · exfalso
    unfold getUnicodeFromHex at hu
    have : (decide (h.length < 4) || decide (h.length % 4 ≠ 0)) = true := by
      simp only [Bool.or_eq_true, decide_eq_true_eq]
      omega
    simp only [this, if_true] at hu
    cases hu

theorem readOptions_ok (argv : List JSString) (o : Options) (h : readOptions argv = .ok o) :
    ∃ file rate volume quality flags voice phrase,
      getWavePath (item argv 1) = .ok file ∧
      getInteger (item argv 2) (-10) 10 "rate" = .ok rate ∧
      getInteger (item argv 3) 1 100 "volume" = .ok volume ∧
      getInteger (item argv 4) 4 39 "quality" = .ok quality ∧
      getInteger (item argv 5) 0 16 "flags" = .ok flags ∧
      getUnicodeFromHex (.string (item argv 6)) "voice" = .ok voice ∧
      getUnicodeFromHex (.string (item argv 7)) "phrase" = .ok phrase ∧
      o = { file := .string file, rate := .number rate, volume := .number volume,
            quality := .number quality, flags := .number flags,
            voice := .string voice, phrase := .string phrase } := by
  unfold readOptions at h
  cases h1 : getWavePath (item argv 1) with
  | error e => rw [h1] at h; cases h
  | ok file =>
    cases h2 : getInteger (item argv 2) (-10) 10 "rate" with
    | error e => rw [h1, h2] at h; cases h
    | ok rate =>
      cases h3 : getInteger (item argv 3) 1 100 "volume" with
      | error e => rw [h1, h2, h3] at h; cases h
      | ok volume =>
        cases h4 : getInteger (item argv 4) 4 39 "quality" with
        | error e => rw [h1, h2, h3, h4] at h; cases h
        | ok quality =>
          cases h5 : getInteger (item argv 5) 0 16 "flags" with
          | error e => rw [h1, h2, h3, h4, h5] at h; cases h
          | ok flags =>
            cases h6 : getUnicodeFromHex (.string (item argv 6)) "voice" with
            | error e => rw [h1, h2, h3, h4, h5, h6] at h; cases h
            | ok voice =>
              cases h7 : getUnicodeFromHex (.string (item argv 7)) "phrase" with
              | error e => rw [h1, h2, h3, h4, h5, h6, h7] at h; cases h
              | ok phrase =>
                rw [h1, h2, h3, h4, h5, h6, h7] at h
                refine ⟨file, rate, volume, quality, flags, voice, phrase, rfl, rfl, rfl, rfl,
                  rfl, rfl, rfl, ?_⟩
                cases h
                rfl

theorem parseArguments_speechOutput (argv : List JSString) (command : JSString) (o : Options)
    (hcmd : item argv 0 = lit "speech-output")
    (h : parseArguments argv = .ok (command, o)) :
    command = lit "speech-output" ∧ argv.length = 8 ∧ readOptions argv = .ok o := by
  have hne : lit "speech-output" ≠ lit "voice-list" := by decide
  unfold parseArguments at h
  by_cases h0 : argv.length < 1
  · simp [h0] at h
  · by_cases h8 : argv.length = 8
    · simp only [h0, if_false, hcmd, hne, h8, ne_eq, not_true_eq_false, if_true] at h
      cases hr : readOptions argv with
      | error e => rw [hr] at h; cases h
      | ok o2 =>
        rw [hr] at h
        cases h
        exact ⟨rfl, h8, rfl⟩
    · simp [h0, hcmd, hne, h8] at h
/-- C13. When the parser accepts a `speech-output` vector, the vector has 8
elements and each field of `options` holds the validated value of its
position: the file is argument 1, of length at least 5 and ending in `.wav` in
any case; rate, volume, quality and flags are the base-10 values of arguments
2 to 5, within -10 to 10, 1 to 100, 4 to 39 and 0 to 16; voice and phrase are
the decoded arguments 6 and 7, each of at least one code unit. -/
theorem parseArguments_options (argv : List JSString) (command : JSString) (o : Options)
    (hcmd : item argv 0 = lit "speech-output")
    (h : parseArguments argv = .ok (command, o)) :
    argv.length = 8 ∧
    (o.file = .string (item argv 1) ∧ 5 ≤ (item argv 1).length ∧ EndsInWav (item argv 1)) ∧
    (∃ r, o.rate = .number (.int r) ∧ r = base10Value (item argv 2) ∧ -10 ≤ r ∧ r ≤ 10) ∧
    (∃ r, o.volume = .number (.int r) ∧ r = base10Value (item argv 3) ∧ 1 ≤ r ∧ r ≤ 100) ∧
    (∃ r, o.quality = .number (.int r) ∧ r = base10Value (item argv 4) ∧ 4 ≤ r ∧ r ≤ 39) ∧
    (∃ r, o.flags = .number (.int r) ∧ r = base10Value (item argv 5) ∧ 0 ≤ r ∧ r ≤ 16) ∧
    (∃ v, o.voice = .string v ∧ getUnicodeFromHex (.string (item argv 6)) "voice" = .ok v ∧
      1 ≤ v.length) ∧
    (∃ v, o.phrase = .string v ∧ getUnicodeFromHex (.string (item argv 7)) "phrase" = .ok v ∧
      1 ≤ v.length) := by
  obtain ⟨_, h8, hr⟩ := parseArguments_speechOutput argv command o hcmd h
  obtain ⟨file, rate, volume, quality, flags, voice, phrase, h1, h2, h3, h4, h5, h6, h7, rfl⟩ :=
    readOptions_ok argv o hr
  obtain ⟨e1, l1, w1⟩ := getWavePath_ok _ _ h1
  obtain ⟨e2, _, a2, b2⟩ := getInteger_ok _ _ _ _ _ h2
  obtain ⟨e3, _, a3, b3⟩ := getInteger_ok _ _ _ _ _ h3
  obtain ⟨e4, _, a4, b4⟩ := getInteger_ok _ _ _ _ _ h4
  obtain ⟨e5, _, a5, b5⟩ := getInteger_ok _ _ _ _ _ h5
  obtain ⟨l6, _, n6, _⟩ := getUnicodeFromHex_ok _ _ _ h6
  obtain ⟨l7, _, n7, _⟩ := getUnicodeFromHex_ok _ _ _ h7
  refine ⟨h8, ⟨by rw [e1], l1, w1⟩, ⟨_, by rw [e2], rfl, a2, b2⟩, ⟨_, by rw [e3], rfl, a3, b3⟩,
    ⟨_, by rw [e4], rfl, a4, b4⟩, ⟨_, by rw [e5], rfl, a5, b5⟩,
    ⟨voice, rfl, h6, by omega⟩, ⟨phrase, rfl, h7, by omega⟩⟩

/-- Witness of C13: a vector with every integer on a boundary of its range;
its rate is read as -10. -/
theorem parseArguments_options_witness :
    parseArguments [lit "speech-output", lit "a.WAV", lit "-10", lit "100", lit "4", lit "16",
      lit "0041006c006900630065", lit "e4bd0041"] =
      .ok (lit "speech-output",
        { file := .string (lit "a.WAV"), rate := .number (.int (-10)),
          volume := .number (.int 100), quality := .number (.int 4),
          flags := .number (.int 16), voice := .string (lit "Alice"),
          phrase := .string [0xE4BD, 65] }) ∧
    ∃ r : Int, JSValue.number (.int (-10)) = .number (.int r) ∧
      r = base10Value (lit "-10") ∧ -10 ≤ r ∧ r ≤ 10 :=
  ⟨by decide,
    (parseArguments_options
      [lit "speech-output", lit "a.WAV", lit "-10", lit "100", lit "4", lit "16",
        lit "0041006c006900630065", lit "e4bd0041"]
      (lit "speech-output")
      { file := .string (lit "a.WAV"), rate := .number (.int (-10)),
        volume := .number (.int 100), quality := .number (.int 4),
        flags := .number (.int 16), voice := .string (lit "Alice"),
        phrase := .string [0xE4BD, 65] }
      (by decide) (by decide)).2.2.1⟩

/-! ## The voice search of `speech-output` -/

theorem strictEquals_string (n : JSValue) (s : JSString) :
    strictEquals n (.string s) = true ↔ n = .string s := by
  cases n with
  | number m => cases m <;> simp [strictEquals]
  | _ => simp [strictEquals]

theorem findVoice_found (s : JSString) (pre : List Voice) (v : Voice) (post : List Voice)
    (hpre : ∀ w ∈ pre, ∃ n, w.name = .ok n ∧ n ≠ .string s) (hv : v.name = .ok (.string s)) :
    ∀ start, findVoice (.string s) (pre ++ v :: post) start = .ok (some (start + pre.length)) := by
  induction pre with
  | nil =>
    intro start
    simp [findVoice, hv, strictEquals_string]
  | cons w ws ih =>
    intro start
    obtain ⟨n, hn, hne⟩ := hpre w (by simp)
    have hs : strictEquals n (.string s) = false := by
      rw [Bool.eq_false_iff]
      exact fun h => hne ((strictEquals_string n s).mp h)
    simp only [List.cons_append, findVoice, hn, hs, Bool.false_eq_true, if_false]
    have hrec := ih (fun x hx => hpre x (by simp [hx])) (start + 1)
    have e : start + 1 + ws.length = start + (w :: ws).length := by
      simp only [List.length_cons]; omega
    rw [e] at hrec
    exact hrec

theorem findVoice_none (s : JSString) (voices : List Voice)
    (h : ∀ w ∈ voices, ∃ n, w.name = .ok n ∧ n ≠ .string s) :
    ∀ start, findVoice (.string s) voices start = .ok none := by
  induction voices with
  | nil => intro start; rfl
  | cons w ws ih =>
    intro start
    obtain ⟨n, hn, hne⟩ := h w (by simp)
    have hs : strictEquals n (.string s) = false := by
      rw [Bool.eq_false_iff]
      exact fun h => hne ((strictEquals_string n s).mp h)
    simp only [findVoice, hn, hs, Bool.false_eq_true, if_false]
    exact ih (fun x hx => h x (by simp [hx])) (start + 1)

theorem findVoice_raises (s : JSString) (pre : List Voice) (v : Voice) (post : List Voice)
    (e : Error) (hpre : ∀ w ∈ pre, ∃ n, w.name = .ok n ∧ n ≠ .string s)
    (hv : v.name = .error e) :
    ∀ start, findVoice (.string s) (pre ++ v :: post) start = .error e := by
  induction pre with
  | nil =>
    intro start
    simp [findVoice, hv]
  | cons w ws ih =>
    intro start
    obtain ⟨n, hn, hne⟩ := hpre w (by simp)
    have hs : strictEquals n (.string s) = false := by
      rw [Bool.eq_false_iff]
      exact fun h => hne ((strictEquals_string n s).mp h)
    simp only [List.cons_append, findVoice, hn, hs, Bool.false_eq_true, if_false]
    exact ih (fun x hx => hpre x (by simp [hx])) (start + 1)

theorem run_speechOutput (p : Platform) (argv : List JSString) (o : Options)
    (hparse : parseArguments argv = .ok (lit "speech-output", o))
    (hsapi : p.spVoice = .ok .object) (hget : p.getVoices = .ok .object)
    (hne : p.voices ≠ []) :
    run p argv = speechOutput p o [.createObject "SAPI.SpVoice", .getVoices] := by
  have hl : ¬ p.voices.length < 1 := by
    have := List.length_pos.mpr hne
    omega
  have hc : lit "speech-output" ≠ lit "voice-list" := by decide
  rw [run_of_parsed p argv _ o hparse hsapi hget]
  simp only [hl, if_false, hc, if_true]

theorem parsed_speechOutput (argv : List JSString) (o : Options)
    (hparse : parseArguments argv = .ok (lit "speech-output", o)) :
    argv.length = 8 ∧ readOptions argv = .ok o := by
  have hcmd : item argv 0 = lit "speech-output" := by
    unfold parseArguments at hparse
    by_cases h0 : argv.length < 1
    · simp [h0] at hparse
    · by_cases h1 : item argv 0 = lit "voice-list"
      · by_cases h2 : argv.length > 1
        · simp [h0, h1, h2] at hparse
        · simp only [h0, if_false, h1, if_true, h2, Except.ok.injEq, Prod.mk.injEq] at hparse
          exact absurd hparse.1 (by decide)
      · by_cases h3 : item argv 0 = lit "speech-output"
        · exact h3
        · simp [h0, h1, h3] at hparse
  exact (parseArguments_speechOutput argv _ o hcmd hparse).2

theorem parsed_voice (argv : List JSString) (o : Options)
    (hparse : parseArguments argv = .ok (lit "speech-output", o)) :
    ∃ s, o.voice = .string s := by
  obtain ⟨_, hr⟩ := parsed_speechOutput argv o hparse
  obtain ⟨_, _, _, _, _, voice, _, _, _, _, _, _, _, _, rfl⟩ := readOptions_ok argv o hr
  exact ⟨voice, rfl⟩

theorem parsed_flags (argv : List JSString) (o : Options)
    (hparse : parseArguments argv = .ok (lit "speech-output", o)) :
    ∃ f : Int, o.flags = .number (.int f) := by
  obtain ⟨_, hr⟩ := parsed_speechOutput argv o hparse
  obtain ⟨_, _, _, _, flags, _, _, _, _, _, _, h5, _, _, rfl⟩ := readOptions_ok argv o hr
  obtain ⟨e5, _⟩ := getInteger_ok _ _ _ _ _ h5
  exact ⟨_, by rw [e5]⟩

theorem speechOutput_found (p : Platform) (o : Options) (trace : List Effect) (i : Nat)
    (h : findVoice o.voice p.voices 0 = .ok (some i)) :
    ∃ rest, (speechOutput p o trace).1 = trace ++ .setVoice i :: rest ∧
      ∀ k, Effect.setVoice k ∉ rest := by
  unfold speechOutput
  simp only [h]
  cases hs : p.spFileStream with
  | error e => exact ⟨[.createObject "SAPI.SpFileStream"], by simp, by simp⟩
  | ok t =>
    by_cases ht : t = .object
    · subst ht
      cases ho : p.openStream o.file with
      | error e =>
        exact ⟨[.createObject "SAPI.SpFileStream", .setFormatType o.quality,
          .openStream o.file 3], by simp, by simp⟩
      | ok u =>
        by_cases hf : toBoolean o.flags = true
        · exact ⟨[.createObject "SAPI.SpFileStream", .setFormatType o.quality,
            .openStream o.file 3, .setAudioOutputStream, .setRate o.rate, .setVolume o.volume,
            .speak o.phrase (some o.flags)], by simp [hf], by simp⟩
        · exact ⟨[.createObject "SAPI.SpFileStream", .setFormatType o.quality,
            .openStream o.file 3, .setAudioOutputStream, .setRate o.rate, .setVolume o.volume,
            .speak o.phrase none], by simp [hf], by simp⟩
    · exact ⟨[.createObject "SAPI.SpFileStream"], by simp [ht], by simp⟩

/-- C11. In a valid `speech-output` run over a non-empty enumeration whose name
lookups all return, the voice assigned to the engine is the first one, in
enumeration order, whose name is the decoded voice argument, and no other voice
is assigned; when no voice has that name the run fails with the
voice-not-found error straight after `getVoices`, without opening a file or
calling speak. -/
theorem speechOutput_first_match (p : Platform) (argv : List JSString) (o : Options)
    (hparse : parseArguments argv = .ok (lit "speech-output", o))
    (hsapi : p.spVoice = .ok .object) (hget : p.getVoices = .ok .object)
    (hne : p.voices ≠ []) (hnames : ∀ w ∈ p.voices, ∃ n, w.name = .ok n) :
    (∀ pre v post, p.voices = pre ++ v :: post → v.name = .ok o.voice →
      (∀ w ∈ pre, w.name ≠ .ok o.voice) →
      ∃ rest, (run p argv).1 =
          [.createObject "SAPI.SpVoice", .getVoices, .setVoice pre.length] ++ rest ∧
        ∀ k, Effect.setVoice k ∉ rest) ∧
    ((∀ w ∈ p.voices, w.name ≠ .ok o.voice) →
      run p argv = ([.createObject "SAPI.SpVoice", .getVoices], .error .voiceNotFound)) := by
  obtain ⟨s, hs⟩ := parsed_voice argv o hparse
  rw [run_speechOutput p argv o hparse hsapi hget hne]
  constructor
  · intro pre v post hv hname hpre
    have hpre2 : ∀ w ∈ pre, ∃ n, w.name = .ok n ∧ n ≠ .string s := by
      intro w hw
      obtain ⟨n, hn⟩ := hnames w (by rw [hv]; simp [hw])
      refine ⟨n, hn, fun hc => hpre w hw ?_⟩
      rw [hn, hc, hs]
    have hf : findVoice o.voice p.voices 0 = .ok (some pre.length) := by
      rw [hs, hv, findVoice_found s pre v post hpre2 (by rw [hname, hs]) 0]
      simp
    obtain ⟨rest, h1, h2⟩ := speechOutput_found p o [.createObject "SAPI.SpVoice", .getVoices]
      pre.length hf
    exact ⟨rest, by rw [h1]; rfl, h2⟩
  · intro hall
    have hall2 : ∀ w ∈ p.voices, ∃ n, w.name = .ok n ∧ n ≠ .string s := by
      intro w hw
      obtain ⟨n, hn⟩ := hnames w hw
      refine ⟨n, hn, fun hc => hall w hw ?_⟩
      rw [hn, hc, hs]
    unfold speechOutput
    rw [hs, findVoice_none s p.voices hall2 0]

/-- C18. In a valid `speech-output` run, when the name lookup of a voice raises
and no voice enumerated before it has the requested name (their lookups
returning), the run fails with the raised error straight after `getVoices`: no
voice is assigned, no file is opened and speak is not called. -/
theorem speechOutput_lookup_failure (p : Platform) (argv : List JSString) (o : Options)
    (pre : List Voice) (v : Voice) (post : List Voice) (e : Error)
    (hparse : parseArguments argv = .ok (lit "speech-output", o))
    (hsapi : p.spVoice = .ok .object) (hget : p.getVoices = .ok .object)
    (hvoices : p.voices = pre ++ v :: post)
    (hpre : ∀ w ∈ pre, ∃ n, w.name = .ok n ∧ n ≠ o.voice) (hv : v.name = .error e) :
    run p argv = ([.createObject "SAPI.SpVoice", .getVoices], .error e) := by
  obtain ⟨s, hs⟩ := parsed_voice argv o hparse
  rw [run_speechOutput p argv o hparse hsapi hget (by rw [hvoices]; simp)]
  unfold speechOutput
  rw [hs] at hpre ⊢
  rw [hvoices, findVoice_raises s pre v post e hpre hv 0]

/-- C14. In a valid `speech-output` run that finds its voice, creates the file
stream and opens the file, the trace is exactly: the voice assignment, the
stream creation, the format set to `options.quality`, the open, the stream
assignment, rate and volume set to `options.rate` and `options.volume`, and
one speak call on `options.phrase`, with `options.flags` as second argument
when the flags are not zero and without second argument when they are. -/
theorem speechOutput_speak (p : Platform) (argv : List JSString) (o : Options) (i : Nat)
    (hparse : parseArguments argv = .ok (lit "speech-output", o))
    (hsapi : p.spVoice = .ok .object) (hget : p.getVoices = .ok .object)
    (hfind : findVoice o.voice p.voices 0 = .ok (some i))
    (hstream : p.spFileStream = .ok .object) (hopen : p.openStream o.file = .ok ()) :
    ∃ f : Int, o.flags = .number (.int f) ∧
      run p argv =
        ([.createObject "SAPI.SpVoice", .getVoices, .setVoice i,
          .createObject "SAPI.SpFileStream", .setFormatType o.quality, .openStream o.file 3,
          .setAudioOutputStream, .setRate o.rate, .setVolume o.volume,
          .speak o.phrase (if f = 0 then none else some o.flags)],
         p.speak o.phrase (if f = 0 then none else some o.flags)) := by
  have hne : p.voices ≠ [] := by
    intro h
    rw [h] at hfind
    simp [findVoice] at hfind
  obtain ⟨f, hf⟩ := parsed_flags argv o hparse
  refine ⟨f, hf, ?_⟩
  rw [run_speechOutput p argv o hparse hsapi hget hne]
  unfold speechOutput
  simp only [hfind, hstream, hopen, ne_eq, not_true_eq_false, if_false, hf, toBoolean]
  by_cases h0 : f = 0
  · simp [h0]
  · simp [h0]

/-- Witness of C11: among Bob, Alice and a second Alice, the request for Alice
assigns voice 1 and no other; the request for Carol fails. -/
theorem speechOutput_first_match_witness :
    (∃ rest, (run (platformOf sampleVoices) (sampleArgv "0" "0041006c006900630065")).1 =
        [.createObject "SAPI.SpVoice", .getVoices, .setVoice 1] ++ rest ∧
      ∀ k, Effect.setVoice k ∉ rest) ∧
    run (platformOf sampleVoices) (sampleArgv "0" "004300610072006f006c") =
      ([.createObject "SAPI.SpVoice", .getVoices], .error .voiceNotFound) :=
  ⟨(speechOutput_first_match (platformOf sampleVoices) (sampleArgv "0" "0041006c006900630065")
      (sampleOptions 0 "Alice") (by decide) rfl rfl (by simp [platformOf, sampleVoices])
      (by simp [platformOf, sampleVoices])).1
      [⟨.ok (.string (lit "Bob")), .ok (.string (lit "en-GB"))⟩]
      ⟨.ok (.string (lit "Alice")), .ok (.string (lit "en-US"))⟩
      [⟨.ok (.string (lit "Alice")), .ok (.string (lit "fr-FR"))⟩] rfl rfl
      (by simp [sampleOptions]; decide),
    (speechOutput_first_match (platformOf sampleVoices) (sampleArgv "0" "004300610072006f006c")
      (sampleOptions 0 "Carol") (by decide) rfl rfl (by simp [platformOf, sampleVoices])
      (by simp [platformOf, sampleVoices])).2
      (by simp [platformOf, sampleVoices, sampleOptions]; decide)⟩

/-- Witness of C18: among Bob, a voice whose name lookup raises, and Alice, the
request for Alice fails with the raised error. -/
theorem speechOutput_lookup_failure_witness :
    run (platformOf sampleVoicesBroken) (sampleArgv "0" "0041006c006900630065") =
      ([.createObject "SAPI.SpVoice", .getVoices], .error (.platformError 7)) :=
  speechOutput_lookup_failure (platformOf sampleVoicesBroken)
    (sampleArgv "0" "0041006c006900630065") (sampleOptions 0 "Alice")
    [⟨.ok (.string (lit "Bob")), .ok (.string (lit "en-GB"))⟩]
    ⟨.error (.platformError 7), .error (.platformError 7)⟩
    [⟨.ok (.string (lit "Alice")), .ok (.string (lit "en-US"))⟩] (.platformError 7)
    (by decide) rfl rfl rfl (by simp [sampleOptions]; decide) rfl

/-- Witness of C14: the request for Alice with flags 0 and with flags 16. -/
theorem speechOutput_speak_witness :
    (∃ f : Int, (sampleOptions 0 "Alice").flags = .number (.int f) ∧
      run (platformOf sampleVoices) (sampleArgv "0" "0041006c006900630065") =
        ([.createObject "SAPI.SpVoice", .getVoices, .setVoice 1,
          .createObject "SAPI.SpFileStream", .setFormatType (sampleOptions 0 "Alice").quality,
          .openStream (sampleOptions 0 "Alice").file 3, .setAudioOutputStream,
          .setRate (sampleOptions 0 "Alice").rate, .setVolume (sampleOptions 0 "Alice").volume,
          .speak (sampleOptions 0 "Alice").phrase
            (if f = 0 then none else some (sampleOptions 0 "Alice").flags)],
         (platformOf sampleVoices).speak (sampleOptions 0 "Alice").phrase
            (if f = 0 then none else some (sampleOptions 0 "Alice").flags))) ∧
    (∃ f : Int, (sampleOptions 16 "Alice").flags = .number (.int f) ∧
      run (platformOf sampleVoices) (sampleArgv "16" "0041006c006900630065") =
        ([.createObject "SAPI.SpVoice", .getVoices, .setVoice 1,
          .createObject "SAPI.SpFileStream", .setFormatType (sampleOptions 16 "Alice").quality,
          .openStream (sampleOptions 16 "Alice").file 3, .setAudioOutputStream,
          .setRate (sampleOptions 16 "Alice").rate, .setVolume (sampleOptions 16 "Alice").volume,
          .speak (sampleOptions 16 "Alice").phrase
            (if f = 0 then none else some (sampleOptions 16 "Alice").flags)],
         (platformOf sampleVoices).speak (sampleOptions 16 "Alice").phrase
            (if f = 0 then none else some (sampleOptions 16 "Alice").flags))) :=
  ⟨speechOutput_speak (platformOf sampleVoices) (sampleArgv "0" "0041006c006900630065")
      (sampleOptions 0 "Alice") 1 (by decide) rfl rfl (by decide) rfl rfl,
    speechOutput_speak (platformOf sampleVoices) (sampleArgv "16" "0041006c006900630065")
      (sampleOptions 16 "Alice") 1 (by decide) rfl rfl (by decide) rfl rfl⟩

/-! ## The rules of the codec -/

theorem digitChar_lowerHex (n : Nat) (h : n < 16) : IsLowerHexDigit (digitChar n) := by
  unfold IsLowerHexDigit digitChar
  by_cases h10 : n < 10
  · rw [if_pos h10]; omega
  · rw [if_neg h10]; omega

theorem hex4_lowerHex (c x : Nat) (hx : x ∈ hex4 c) : IsLowerHexDigit x := by
  simp only [hex4, List.mem_cons, List.mem_singleton, List.not_mem_nil, or_false] at hx
  rcases hx with rfl | rfl | rfl | rfl <;> exact digitChar_lowerHex _ (Nat.mod_lt _ (by decide))

theorem hexDigitValue_digitChar (n : Nat) (h : n < 16) : hexDigitValue (digitChar n) = n := by
  unfold hexDigitValue digitChar
  by_cases h10 : n < 10
  · rw [if_pos h10, if_pos (by omega)]; omega
  · rw [if_neg h10, if_neg (by omega), if_pos (by omega)]; omega

theorem base16Value_hex4 (c : Nat) (h : c < 65536) : base16Value (hex4 c) = c := by
  simp only [base16Value, hex4, List.map_cons, List.map_nil, List.reverse_cons, List.reverse_nil,
    List.nil_append, List.cons_append, Nat.ofDigits_cons, Nat.ofDigits_nil,
    hexDigitValue_digitChar _ (Nat.mod_lt _ (show 0 < 16 by decide))]
  omega

theorem flatten_hex4_length (s : JSString) : (s.map hex4).flatten.length = 4 * s.length := by
  induction s with
  | nil => rfl
  | cons c cs ih =>
    simp only [List.map_cons, List.flatten_cons, List.length_append, ih, hex4, List.length_cons,
      List.length_nil]
    omega

/-- C16. The encoding of a text of 16-bit code units is the concatenation, in
order, of the four-digit zero-padded lower-case hexadecimal form of each code
unit (four lower-case hex digits whose base-16 value is the code unit); its
length is 4 times the number of code units, and the empty string is encoded
as the empty string. -/
theorem getHexFromUnicode_rule (s : JSString) (hs : IsUtf16 s) :
    getHexFromUnicode (.string s) = .ok (s.map hex4).flatten ∧
    (s.map hex4).flatten.length = 4 * s.length ∧
    (∀ c ∈ s, (hex4 c).length = 4 ∧ (∀ x ∈ hex4 c, IsLowerHexDigit x) ∧
      base16Value (hex4 c) = c) ∧
    getHexFromUnicode (.string []) = .ok [] :=
  ⟨getHexFromUnicode_eq s hs, flatten_hex4_length s,
    fun c hc => ⟨rfl, hex4_lowerHex c, base16Value_hex4 c (hs c hc)⟩, rfl⟩

/-- Witness of C16: the text of code units E4BD, 0, F and 41. -/
theorem getHexFromUnicode_rule_witness :
    IsUtf16 [0xE4BD, 0, 15, 65] ∧
    getHexFromUnicode (.string [0xE4BD, 0, 15, 65]) = .ok (lit "e4bd0000000f0041") :=
  ⟨by decide, (getHexFromUnicode_rule [0xE4BD, 0, 15, 65] (by decide)).1⟩

theorem quads_getElem (k : Nat) :
    ∀ h : JSString, 4 * (k + 1) ≤ h.length → (quads h)[k]? = some ((h.drop (4 * k)).take 4) := by
  induction k with
  | zero =>
    intro h hl
    match h, hl with
    | a :: b :: c :: d :: rest, _ => simp [quads]
  | succ k ih =>
    intro h hl
    match h, hl with
    | a :: b :: c :: d :: rest, hl =>
      have hr : 4 * (k + 1) ≤ rest.length := by
        simp only [List.length_cons] at hl; omega
      have e : 4 * (k + 1) = 4 * k + 4 := by ring
      simp only [quads, List.getElem?_cons_succ, ih rest hr, e, List.drop_succ_cons]

theorem hexDigitValue_spec (c : Nat) (h : IsHexDigit c) :
    digitValue c = some (hexDigitValue c) ∧ hexDigitValue c < 16 := by
  unfold IsHexDigit at h
  unfold digitValue hexDigitValue
  rcases h with h | h | h
  · rw [if_pos h, if_pos h.2]; exact ⟨rfl, by omega⟩
  · rw [if_neg (by omega), if_pos (by omega), if_neg (by omega), if_pos h.1]
    exact ⟨rfl, by omega⟩
  · rw [if_neg (by omega), if_neg (by omega), if_pos (by omega), if_neg (by omega),
      if_neg (by omega)]
    exact ⟨rfl, by omega⟩

theorem decode_quad (a b c d : Nat) (ha : IsHexDigit a) (hb : IsHexDigit b)
    (hc : IsHexDigit c) (hd : IsHexDigit d) :
    toUint16 (parseInt [a, b, c, d] 16) = base16Value [a, b, c, d] := by
  obtain ⟨va, la⟩ := hexDigitValue_spec a ha
  obtain ⟨vb, lb⟩ := hexDigitValue_spec b hb
  obtain ⟨vc, lc⟩ := hexDigitValue_spec c hc
  obtain ⟨vd, ld⟩ := hexDigitValue_spec d hd
  rw [parseInt_quad a b c d _ _ _ _ va vb vc vd la lb lc ld, toUint16_int _ (by omega)]
  simp only [base16Value, List.map_cons, List.map_nil, List.reverse_cons, List.reverse_nil,
    List.nil_append, List.cons_append, Nat.ofDigits_cons, Nat.ofDigits_nil]
  omega

/-- C17. A string of 4n hexadecimal digits, n at least 1, is decoded to a text
of exactly n code units, the k-th of which is the base-16 value of the k-th
chunk of 4 characters. -/
theorem getUnicodeFromHex_rule (h : JSString) (what : String) (n : Nat) (hn : 1 ≤ n)
    (hlen : h.length = 4 * n) (hd : ∀ c ∈ h, IsHexDigit c) :
    ∃ u, getUnicodeFromHex (.string h) what = .ok u ∧ u.length = n ∧
      ∀ k, k < n → u[k]? = some (base16Value ((h.drop (4 * k)).take 4)) := by
  refine ⟨_, getUnicodeFromHex_eq h what (by omega) (by omega), ?_, ?_⟩
  · rw [List.length_map, quads_length]; omega
  · intro k hk
    rw [List.getElem?_map, quads_getElem k h (by omega)]
    have hl : ((h.drop (4 * k)).take 4).length = 4 := by
      rw [List.length_take, List.length_drop]; omega
    have hmem : ∀ x ∈ (h.drop (4 * k)).take 4, IsHexDigit x :=
      fun x hx => hd x (List.mem_of_mem_drop (List.mem_of_mem_take hx))
    match hq : (h.drop (4 * k)).take 4, hl, hmem with
    | [a, b, c, d], _, hmem =>
      simp only [Option.map_some']
      rw [decode_quad a b c d (hmem a (by simp)) (hmem b (by simp)) (hmem c (by simp))
        (hmem d (by simp))]

/-- Witness of C17: `e4bd` decodes to the single code unit E4BD. -/
theorem getUnicodeFromHex_rule_witness :
    ((lit "e4bd").length = 4 * 1 ∧ ∀ c ∈ lit "e4bd", IsHexDigit c) ∧
    (∃ u, getUnicodeFromHex (.string (lit "e4bd")) "phrase" = .ok u ∧ u.length = 1 ∧
      ∀ k, k < 1 → u[k]? = some (base16Value (((lit "e4bd").drop (4 * k)).take 4))) ∧
    getUnicodeFromHex (.string (lit "e4bd")) "phrase" = .ok [0xE4BD] :=
  ⟨by decide, getUnicodeFromHex_rule (lit "e4bd") "phrase" 1 (by decide) (by decide) (by decide),
    by decide⟩

/-! ## Totality of the encoder and the lines of `voice-list` -/

theorem numberToString_16_length (c : Nat) (hc : c < 65536) :
    1 ≤ (numberToString c 16).length ∧ (numberToString c 16).length ≤ 4 := by
  rw [numberToString_16 c hc]
  simp only [toDigitsAux]
  by_cases h1 : c / 16 = 0
  · simp [h1]
  · by_cases h2 : c / 16 / 16 = 0
    · simp [h1, h2]
    · by_cases h3 : c / 16 / 16 / 16 = 0
      · simp [h1, h2, h3]
      · have h4 : c / 16 / 16 / 16 / 16 = 0 := by omega
        simp [h1, h2, h3, h4]

/-- C20. On every value (a string being made of 16-bit code units)
`getHexFromUnicode` returns without throwing; the base-16 rendering of a code
unit has between 1 and 4 digits, so the loop never reaches the branch that
throws the bad-chunk error; and for a value that is not a string, or is the
empty string, the result is the empty string. -/
theorem getHexFromUnicode_total (v : JSValue) (hv : WellFormed v) :
    (∃ h, getHexFromUnicode v = .ok h) ∧
    (∀ c, c < 65536 →
      1 ≤ (numberToString c 16).length ∧ (numberToString c 16).length ≤ 4) ∧
    (∀ u acc, IsUtf16 u → encodeLoop u acc ≠ .error .badChunk) ∧
    ((∀ s, v = .string s → s = []) → getHexFromUnicode v = .ok []) := by
  refine ⟨?_, numberToString_16_length, ?_, ?_⟩
  · cases v with
    | string s => exact ⟨_, getHexFromUnicode_eq s hv⟩
    | _ => exact ⟨[], rfl⟩
  · intro u acc hu
    rw [encodeLoop_eq u hu acc]
    exact fun h => by cases h
  · intro hs
    cases v with
    | string s => rw [hs s rfl]; rfl
    | _ => rfl

/-- Witness of C20: on the text of code units 0, F, FF, FFF and FFFF, whose
renderings have 1 to 4 digits, and on `undefined`. -/
theorem getHexFromUnicode_total_witness :
    (WellFormed (.string [0, 15, 255, 4095, 65535]) ∧
      (∃ h, getHexFromUnicode (.string [0, 15, 255, 4095, 65535]) = .ok h) ∧
      getHexFromUnicode (.string [0, 15, 255, 4095, 65535]) =
        .ok (lit "0000000f00ff0fffffff")) ∧
    (WellFormed .undefined ∧ getHexFromUnicode .undefined = .ok []) :=
  ⟨⟨by decide, (getHexFromUnicode_total (.string [0, 15, 255, 4095, 65535]) (by decide)).1,
      by decide⟩,
    ⟨trivial, (getHexFromUnicode_total .undefined trivial).2.2.2 (by simp)⟩⟩

theorem hexField_encode (s : JSString) (hs : s ≠ []) : IsHexField (s.map hex4).flatten := by
  have hl := flatten_hex4_length s
  have hpos : 0 < s.length := List.length_pos.mpr hs
  refine ⟨?_, by omega, ?_⟩
  · intro h
    have hz := congrArg List.length h
    rw [hl, List.length_nil] at hz
    omega
  · intro c hc
    simp only [List.mem_flatten, List.mem_map] at hc
    obtain ⟨q, ⟨x, _, rfl⟩, hq⟩ := hc
    exact hex4_lowerHex x c hq

theorem hexField_accepted (f : JSString) (what : String) (h : IsHexField f) :
    ∃ u, getUnicodeFromHex (.string f) what = .ok u := by
  obtain ⟨hne, hm, _⟩ := h
  have hpos : 0 < f.length := List.length_pos.mpr hne
  exact ⟨_, getUnicodeFromHex_eq f what (by omega) hm⟩

theorem isDataLine_of_fields (f1 f2 : JSString) (h1 : IsHexField f1) (h2 : IsHexField f2) :
    IsDataLine (f1 ++ lit " " ++ f2) :=
  ⟨f1, f2, rfl, h1, h2, hexField_accepted f1 "voice" h1, hexField_accepted f2 "voice" h2⟩

theorem unknown_hexField :
    getHexFromUnicode (.string (lit "unknown")) = .ok (lit "0075006e006b006e006f0077006e") ∧
      IsHexField (lit "0075006e006b006e006f0077006e") := by
  decide

theorem dataLine_ok (n : JSString) (language : JSValue) (hn : n ≠ []) (hu : IsUtf16 n)
    (hl : WellFormed language) :
    ∃ l, dataLine (.string n) language = .ok l ∧ IsDataLine l := by
  have h1 := getHexFromUnicode_eq n hu
  have f1 := hexField_encode n hn
  obtain ⟨hunk, funk⟩ := unknown_hexField
  unfold dataLine
  by_cases hb : toBoolean language = true
  · cases language with
    | string s =>
      have hs : s ≠ [] := by simpa [toBoolean] using hb
      have h2 := getHexFromUnicode_eq s hl
      have f2 := hexField_encode s hs
      have ht : toBoolean (.string (s.map hex4).flatten) = true := by
        simp only [toBoolean, decide_eq_true_eq]
        exact f2.1
      refine ⟨_, ?_, isDataLine_of_fields _ _ f1 f2⟩
      simp only [h1, hb, h2, ht, if_true, bind, Except.bind, pure, Except.pure]
    | undefined => simp [toBoolean] at hb
    | null => simp [toBoolean] at hb
    | boolean b =>
      have hnon : getHexFromUnicode (.boolean b) = .ok [] := rfl
      have hempty : toBoolean (.string []) = false := rfl
      refine ⟨_, ?_, isDataLine_of_fields _ _ f1 funk⟩
      simp only [h1, hb, hnon, hempty, hunk, if_true, bind, Except.bind, pure, Except.pure,
        Bool.false_eq_true, if_false]
    | number m =>
      have hnon : getHexFromUnicode (.number m) = .ok [] := rfl
      have hempty : toBoolean (.string []) = false := rfl
      refine ⟨_, ?_, isDataLine_of_fields _ _ f1 funk⟩
      simp only [h1, hb, hnon, hempty, hunk, if_true, bind, Except.bind, pure, Except.pure,
        Bool.false_eq_true, if_false]
    | object =>
      have hnon : getHexFromUnicode .object = .ok [] := rfl
      have hempty : toBoolean (.string []) = false := rfl
      refine ⟨_, ?_, isDataLine_of_fields _ _ f1 funk⟩
      simp only [h1, hb, hnon, hempty, hunk, if_true, bind, Except.bind, pure, Except.pure,
        Bool.false_eq_true, if_false]
  · refine ⟨_, ?_, isDataLine_of_fields _ _ f1 funk⟩
    simp only [h1, hb, hunk, if_false, bind, Except.bind, pure, Except.pure, Bool.false_eq_true]

theorem voiceListLoop_lines (voices : List Voice)
    (hwf : ∀ v ∈ voices, (∀ x, v.name = .ok x → WellFormed x) ∧
      (∀ x, v.language = .ok x → WellFormed x)) :
    ∀ (name language : JSValue) (out : List JSString), WellFormed name → WellFormed language →
      ∃ lines, voiceListLoop voices name language out = (out ++ lines, .ok ()) ∧
        lines.length ≤ voices.length ∧ ∀ l ∈ lines, IsDataLine l := by
  induction voices with
  | nil =>
    intro name language out _ _
    exact ⟨[], by simp [voiceListLoop], by simp, by simp⟩
  | cons v vs ih =>
    intro name language out hname hlang
    obtain ⟨hvn, hvl⟩ := hwf v (by simp)
    have ih2 := ih (fun x hx => hwf x (by simp [hx]))
    have hname2 : WellFormed (match v.name with
        | .ok value => value
        | .error _ => name) := by
      cases hv : v.name with
      | ok x => exact hvn x hv
      | error e => exact hname
    have hlang2 : WellFormed (match v.language with
        | .ok value => value
        | .error _ => language) := by
      cases hv : v.language with
      | ok x => exact hvl x hv
      | error e => exact hlang
    rw [voiceListLoop]
    generalize (match v.name with
        | .ok value => value
        | .error _ => name) = name2 at hname2 ⊢
    generalize (match v.language with
        | .ok value => value
        | .error _ => language) = language2 at hlang2 ⊢
    have hskip : ∃ lines, voiceListLoop vs name2 language2 out = (out ++ lines, .ok ()) ∧
        lines.length ≤ (v :: vs).length ∧ ∀ l ∈ lines, IsDataLine l := by
      obtain ⟨lines, h1, h2, h3⟩ := ih2 name2 language2 out hname2 hlang2
      exact ⟨lines, h1, by simp only [List.length_cons]; omega, h3⟩
    cases name2 with
    | string n =>
      by_cases hn : n.length > 0
      · have hne : n ≠ [] := List.length_pos.mp hn
        obtain ⟨line, hline, hdl⟩ := dataLine_ok n language2 hne hname2 hlang2
        obtain ⟨lines, h1, h2, h3⟩ := ih2 (.string n) language2 (out ++ [line]) hname2 hlang2
        refine ⟨line :: lines, ?_, by simp only [List.length_cons]; omega, ?_⟩
        · simp only [hn, if_true, hline, h1, List.append_assoc, List.singleton_append]
        · intro l hl
          rcases List.mem_cons.mp hl with rfl | hl
          · exact hdl
          · exact h3 l hl
      · simp only [hn, if_false]
        exact hskip
    | undefined => exact hskip
    | null => exact hskip
    | boolean b => exact hskip
    | number m => exact hskip
    | object => exact hskip

theorem isDataLine_one_space (l : JSString) (h : IsDataLine l) : l.count 32 = 1 := by
  obtain ⟨f1, f2, rfl, ⟨_, _, h1⟩, ⟨_, _, h2⟩, _, _⟩ := h
  have c1 : f1.count 32 = 0 := by
    rw [List.count_eq_zero]
    intro hm
    have := h1 32 hm
    unfold IsLowerHexDigit at this
    omega
  have c2 : f2.count 32 = 0 := by
    rw [List.count_eq_zero]
    intro hm
    have := h2 32 hm
    unfold IsLowerHexDigit at this
    omega
  have hsp : lit " " = [32] := by decide
  rw [List.count_append, List.count_append, c1, c2, hsp]
  rfl

/-- C19. Whatever the name and language lookups return or raise (a returned
string being made of 16-bit code units), `voice-list` ends without error and
every line it writes after the marker is made of two fields separated by the
only space of the line, each field a non-empty string of lower-case
hexadecimal digits of a length that is a multiple of 4, which
`getUnicodeFromHex` accepts; and there are at most as many such lines as
voices. -/
theorem voiceList_lines_wellFormed (voices : List Voice)
    (hwf : ∀ v ∈ voices, (∀ x, v.name = .ok x → WellFormed x) ∧
      (∀ x, v.language = .ok x → WellFormed x)) :
    ∃ lines, voiceList voices = (voiceListMarker :: lines, .ok ()) ∧
      lines.length ≤ voices.length ∧
      ∀ l ∈ lines, IsDataLine l ∧ l.count 32 = 1 := by
  obtain ⟨lines, h1, h2, h3⟩ :=
    voiceListLoop_lines voices hwf .undefined .undefined [voiceListMarker] trivial trivial
  exact ⟨lines, h1, h2, fun l hl => ⟨h3 l hl, isDataLine_one_space l (h3 l hl)⟩⟩

/-- Witness of C19: Bob, a voice whose lookups raise, and Alice. -/
theorem voiceList_lines_wellFormed_witness :
    ∃ lines, voiceList sampleVoicesBroken = (voiceListMarker :: lines, .ok ()) ∧
      lines.length ≤ sampleVoicesBroken.length ∧
      ∀ l ∈ lines, IsDataLine l ∧ l.count 32 = 1 :=
  voiceList_lines_wellFormed sampleVoicesBroken (by
    intro v hv
    simp only [sampleVoicesBroken, List.mem_cons, List.mem_singleton, List.not_mem_nil,
      or_false] at hv
    rcases hv with rfl | rfl | rfl
    · refine ⟨fun x hx => ?_, fun x hx => ?_⟩
      · cases hx; exact (by decide : IsUtf16 (lit "Bob"))
      · cases hx; exact (by decide : IsUtf16 (lit "en-GB"))
    · refine ⟨fun x hx => ?_, fun x hx => ?_⟩
      · cases hx
      · cases hx
    · refine ⟨fun x hx => ?_, fun x hx => ?_⟩
      · cases hx; exact (by decide : IsUtf16 (lit "Alice"))
      · cases hx; exact (by decide : IsUtf16 (lit "en-US")))

end Sapi5js
